import Mathlib

/-!
Verification of the midgy literate-programming tangler.

This file gives a shallow embedding, in Lean, of the parts of the midgy
source that convert markdown documents to python code, and proves (or
refutes) the specification claims about them.

Embedded source files (paths relative to the repository root):

* `src/midgy/lex.py` — the custom markdown-it block lexers for shebang
  lines and front matter (namespace `Midgy.Lex`).
* `src/midgy/render.py` — the `Renderer` base class, its custom code,
  doctest and fence lexers, and the token walking machinery
  (namespace `Midgy`).
* `src/midgy/python.py` — the `Python` renderer that emits python code
  (namespace `Midgy`).
* `src/midgy/language/python.py` — a second generation of the renderer;
  only its fence-method resolver and non-code fence renderer are
  embedded here (namespace `Midgy.Lang`).

Modelling conventions:

* python strings are Lean `String`s manipulated through their character
  lists; python slices `s[a:b]` become `take`/`drop` on characters.
* machine integers are `Nat` (all quantities involved are line numbers,
  indents and lengths, which are non-negative in the source).
* operations that can raise in python (`dict[key]`, `next(iterator)`,
  `s[-1]` on an empty string) return `Except Err` values; everything
  else is total, as in the source.
* documents are assumed to use `\n` line endings and space indentation
  (markdown-it normalizes `\r\n`/`\r` to `\n` before lexing; tab
  expansion is not modelled).
-/

namespace Midgy

/-- python `str.isspace` character set (the whitespace class used by
`str.strip`, `str.lstrip`, `str.rstrip` and the regex class `\s`). -/
def pyWsChar (c : Char) : Bool :=
  c = ' ' || c = '\t' || c = '\n' || c = '\r' || c = '\x0b' || c = '\x0c'

/-- the characters of a string. -/
def chars (s : String) : List Char := s.data

/-- build a string from characters. -/
def ofChars (l : List Char) : String := ⟨l⟩

/-- python `s[:n]` (character slice). -/
def pyTake (s : String) (n : Nat) : String := ofChars ((chars s).take n)

/-- python `s[n:]` (character slice). -/
def pyDrop (s : String) (n : Nat) : String := ofChars ((chars s).drop n)

/-- python `len(s)` (character count). -/
def pyLen (s : String) : Nat := (chars s).length

/-- python `s.lstrip()`. -/
def lstrip (s : String) : String := ofChars ((chars s).dropWhile pyWsChar)

/-- python `s.rstrip()`. -/
def rstrip (s : String) : String :=
  ofChars (((chars s).reverse.dropWhile pyWsChar).reverse)

/-- python `s.strip()`. -/
def pyStrip (s : String) : String := lstrip (rstrip s)

/-- python `s.lstrip(c)` for a single strip character. -/
def lstripChar (s : String) (c : Char) : String :=
  ofChars ((chars s).dropWhile (· = c))

/-- python `s.endswith(t)`. -/
def endsWithStr (s t : String) : Bool := (chars t).isSuffixOf (chars s)

/-- python `s.startswith(t)`. -/
def startsWithStr (s t : String) : Bool := (chars t).isPrefixOf (chars s)

/-- python `c in s` for a character. -/
def containsChar (s : String) (c : Char) : Bool := (chars s).contains c

/-- python `s.count(" ")`. -/
def countSpaces (s : String) : Nat := ((chars s).filter (· = ' ')).length

/-- number of newline characters in a string; the measure used for the
line-count-preservation property (`count_lines`). -/
def countNL (s : String) : Nat := ((chars s).filter (· = '\n')).length

/-- a run of `n` spaces (python `SP * n`). -/
def SPn (n : Nat) : String := ofChars (List.replicate n ' ')

/-- python `s.partition(" ")` returning the pieces before and after the
first space (both empty-tolerant, as in python). -/
def partitionSpace (s : String) : String × String :=
  let l := chars s
  let pre := l.takeWhile (· ≠ ' ')
  if pre.length = l.length then (ofChars l, "") else
    (ofChars pre, ofChars (l.drop (pre.length + 1)))

/-- split a string after every newline, the way iterating a python
`StringIO` yields lines: each piece ends with `\n` except possibly the
last, and the empty string yields no lines. -/
def splitNlAux : List Char → List Char → List String
  | [], [] => []
  | [], acc => [ofChars acc.reverse]
  | c :: rest, acc =>
    if c = '\n' then ofChars (acc.reverse ++ ['\n']) :: splitNlAux rest []
    else splitNlAux rest (c :: acc)

/-- lines of a string as a python `StringIO` yields them. -/
def splitNl (s : String) : List String := splitNlAux (chars s) []

/-- flatten the fragments yielded by a generator into the printed
output (`print(*iter, sep="", end="")`). -/
def flat : List String → String
  | [] => ""
  | s :: ts => s ++ flat ts

/-- longest common prefix of two character lists. -/
def commonPre : List Char → List Char → List Char
  | a :: as, b :: bs => if a = b then a :: commonPre as bs else []
  | _, _ => []

/-- `textwrap.dedent`: whitespace-only lines are emptied, then the common
leading-whitespace margin of the remaining lines is removed from every
line. -/
def pyDedent (s : String) : String :=
  let ls := splitNl s
  let ls := ls.map (fun l =>
    let core := ofChars ((chars l).filter (· ≠ '\n'))
    if core ≠ "" && (chars core).all (fun c => c = ' ' || c = '\t') then
      ofChars ((chars l).filter (· = '\n'))
    else l)
  let margins := (ls.filter (fun l => lstrip l ≠ "")).map
    (fun l => (chars l).takeWhile (fun c => c = ' ' || c = '\t'))
  let margin :=
    match margins with
    | [] => []
    | m :: ms => ms.foldl commonPre m
  flat (ls.map (fun l =>
    if (margin.isPrefixOf (chars l) : Bool) then pyDrop l margin.length else l))

/-- runtime errors raised by partial python operations; the renderer is
embedded in `Except Err` so that every place the source could raise is
visible. -/
inductive Err where
  | keyError : String → Err
  | stopIteration : Err
  | indexError : Err
  deriving DecidableEq, Repr

/-- the markdown-it token types that the midgy renderer distinguishes.
All other token types (paragraph pieces, headings, lists, …) have no
renderer method and behave identically; they are collapsed into
`.para`. -/
inductive TokType where
  | shebang | front_matter | code_block | fence | hr | para
  deriving DecidableEq, Repr

/-- `token.meta`: python stores a dict; each field is `none` when the
corresponding key was never set (so that a lookup of a missing key can
fail, as `meta["…"]` does).  `outputSpan` distinguishes a missing
`"output"` key (`none`) from a key explicitly set to `None`
(`some none`), as `_doctest_lexer` does. -/
structure Meta where
  first_indent : Option Nat := none
  last_indent : Option Nat := none
  min_indent : Option Nat := none
  magic : Option Bool := none
  inputSpan : Option (Nat × Nat) := none
  outputSpan : Option (Option (Nat × Nat)) := none
  deriving DecidableEq, Repr

/-- a markdown-it token, restricted to the fields midgy reads. -/
structure Token where
  ttype : TokType
  tmap : Nat × Nat
  info : String := ""
  markup : String := ""
  content : String := ""
  tmeta : Meta := {}
  deriving DecidableEq, Repr

/-- the `Renderer`/`Python` dataclass options (src/midgy/render.py and
src/midgy/python.py), with their source defaults. -/
structure Config where
  cell_hr_length : Nat := 9
  include_code_fences : List String := ["python", "ipython"]
  include_indented_code : Bool := true
  include_doctest : Bool := false
  config_key : String := "py"
  include_docstring : Bool := true
  include_front_matter : Bool := true
  include_markdown : Bool := true
  include_magic : Bool := true
  deriving DecidableEq, Repr

/-- loaded front matter, modelled from the spec: the structured-loader
collaborator returns a mapping; only lookups by key are ever used by the
renderer.  Entries are renderer configurations (`type(self)(**config)`);
an absent or falsy payload is `none` at the call site. -/
abbrev FM := List (String × Config)

/-- lookup in loaded front matter (`front_matter.get(key, None)`). -/
def fmGet (fm : FM) (k : String) : Option Config :=
  (fm.find? (fun p => p.fst = k)).map (·.snd)

/-- the rendering environment dict created by `get_initial_env`.  Keys
read through `env.get(key, default)` in the source are total fields with
that default. -/
structure Env where
  src : List String := []
  last_line : Nat := 0
  min_indent : Nat := 0
  last_indent : Nat := 0
  colon_block : Bool := false
  quoted_block : Bool := false
  continued : Bool := false
  next_code : Option Token := none
  deriving DecidableEq, Repr

/-- `env["source"].readline()` followed by `env["last_line"] += 1`;
reading past the end returns `""` as `StringIO.readline` does. -/
def readline (env : Env) : String × Env :=
  (env.src.getD env.last_line "", { env with last_line := env.last_line + 1 })

/-- read `n` consecutive lines. -/
def readCount (env : Env) : Nat → List String × Env
  | 0 => ([], env)
  | n + 1 =>
    let (l, env1) := readline env
    let (ls, env2) := readCount env1 n
    (l :: ls, env2)

/-- `Renderer.get_block` for a concrete stop line: read lines while
`last_line < stop`; each read advances `last_line` by one, so exactly
`stop - last_line` lines are read. -/
def getBlockTo (env : Env) (stop : Nat) : List String × Env :=
  readCount env (stop - env.last_line)

/-- `Renderer.get_block`: with no stop the remaining buffer is yielded
without touching `last_line` (`yield from env["source"]`). -/
def get_block (env : Env) : Option Nat → List String × Env
  | none => (env.src.drop env.last_line, env)
  | some stop => getBlockTo env stop

section Lexing

/-!
The markdown-it `StateBlock` line metadata and the midgy block lexers.

`LineRec` mirrors the per-line marks the host parser computes once per
document: `bMark`/`eMark` are the character offsets of the line's start
and end (the newline is at `eMark`), `tShift` the number of leading
indentation characters and `sCount` the indentation width.  With tabs
unmodelled, `tShift = sCount`.
-/

/-- per-line marks of markdown-it's `StateBlock`. -/
structure LineRec where
  bMark : Nat
  tShift : Nat
  sCount : Nat
  eMark : Nat
  deriving DecidableEq, Repr

/-- the `StateBlock` line scan.  A trailing run of whitespace without a
final newline is not registered as a line (the indent branch `continue`s
past the end-of-source check), which is why the recursion can finish
with a part-built line that is discarded. -/
def lineRecsAux (total : Nat) :
    List Char → Nat → Nat → Nat → Bool → List LineRec
  | [], _, _, _, _ => []
  | c :: rest, pos, start, indent, indentFound =>
    if !indentFound && (c = ' ' || c = '\t') then
      lineRecsAux total rest (pos + 1) start (indent + 1) false
    else if c = '\n' || pos + 1 = total then
      let e := if c = '\n' then pos else pos + 1
      ⟨start, indent, indent, e⟩ ::
        lineRecsAux total rest (pos + 1) (pos + 1) 0 false
    else
      lineRecsAux total rest (pos + 1) start indent true

/-- a parsed document: the source text and its line marks. -/
structure Doc where
  src : String
  recs : List LineRec
  deriving DecidableEq, Repr

/-- build the `StateBlock` view of a source string. -/
def mkDoc (s : String) : Doc :=
  ⟨s, lineRecsAux (pyLen s) (chars s) 0 0 0 false⟩

/-- line marks of line `i` (out-of-range lines read as the zero record,
matching the sentinel marks markdown-it appends). -/
def recOf (st : Doc) (i : Nat) : LineRec := st.recs.getD i ⟨0, 0, 0, 0⟩

/-- `state.srcCharCode[a:b]` (python slices clamp). -/
def srcSlice (st : Doc) (a b : Nat) : List Char :=
  ((chars st.src).drop a).take (b - a)

/-- `state.srcCharCode[p]`, total because every access in the embedded
rules is within the source (see the callers). -/
def srcAt (st : Doc) (p : Nat) : Char := (chars st.src).getD p '\x00'

/-- `state.isEmpty(line)`: only whitespace before the line end. -/
def lineEmpty (st : Doc) (i : Nat) : Bool :=
  (recOf st i).bMark + (recOf st i).tShift ≥ (recOf st i).eMark

/-- number of registered lines (`state.lineMax`). -/
def lineMax (st : Doc) : Nat := st.recs.length

/-- the text of line `i` from its first non-indent character to its end
(`state.src[start:maximum]`). -/
def lineTail (st : Doc) (i : Nat) : String :=
  ofChars (srcSlice st ((recOf st i).bMark + (recOf st i).tShift) (recOf st i).eMark)

/-- `state.getLines(begin, end, indent, keepends=True)`: each line with
up to `indent` leading indentation characters removed, newlines kept. -/
def getLines (st : Doc) (a b indent : Nat) : String :=
  flat ((List.range (b - a)).map (fun k =>
    let r := recOf st (a + k)
    ofChars (srcSlice st (r.bMark + min indent r.tShift)
      (min (r.eMark + 1) (pyLen st.src)))))

end Lexing

namespace Lex

/-!
Block lexers from src/midgy/lex.py (`_shebang_lexer`,
`_front_matter_lexer`).  `render.py` wires lexers of these names (from a
sibling module not present in the source tree); lex.py holds the
repository's implementation of both, and the claims cite it.
-/

/-- the regex `^#!(?P<interpreter>\S+)\s+(?P<command>\S*)` applied with
`re.match`: after `#!` a non-empty run of non-whitespace must be
followed by at least one whitespace character (`\s+`); the command part
`\S*` may be empty. -/
def shebangRe (s : String) : Bool :=
  match chars s with
  | '#' :: '!' :: rest =>
    let run := rest.takeWhile (fun c => !pyWsChar c)
    decide (run ≠ []) &&
      decide ((rest.drop run.length).takeWhile pyWsChar ≠ [])
  | _ => false

/-- `_shebang_lexer`: succeeds only when the first content character of
the line is at absolute offset 0 and the line matches `shebangRe`; on
success exactly one `shebang` token spanning one line is produced, and
on failure the state is untouched (modelled by `none`). -/
def shebangLexer (st : Doc) (startLine : Nat) : Option Token :=
  let r := recOf st startLine
  if r.bMark + r.tShift ≠ 0 then none
  else if shebangRe (lineTail st startLine) then
    some ⟨.shebang, (startLine, startLine + 1), "", "",
      getLines st startLine (startLine + 1) 0, {}⟩
  else none

/-- the opening test of `_front_matter_lexer` (lex.py lines 97–114):
requires zero indentation, a token list that is empty or a single
shebang, a first character `-` or `+`, and the rest of the line equal to
exactly two more copies of that character.  Returns the marker. -/
def fmOpenChar (st : Doc) (toks : List Token) (startLine : Nat) : Option Char :=
  if (recOf st startLine).sCount ≠ 0 then none
  else if toks.length > 1 then none
  else if toks ≠ [] && decide ((toks.getLast?.map (·.ttype)) ≠ some .shebang) then none
  else if srcAt st ((recOf st startLine).bMark + (recOf st startLine).tShift) = '-' ||
      srcAt st ((recOf st startLine).bMark + (recOf st startLine).tShift) = '+' then
    if srcSlice st ((recOf st startLine).bMark + (recOf st startLine).tShift + 1)
        (recOf st startLine).eMark =
        [srcAt st ((recOf st startLine).bMark + (recOf st startLine).tShift),
         srcAt st ((recOf st startLine).bMark + (recOf st startLine).tShift)] then
      some (srcAt st ((recOf st startLine).bMark + (recOf st startLine).tShift))
    else none
  else none

/-- does line `j` close a front matter block opened with marker `c`
(the conditions of the search loop, at block indent 0): first content
character equals the marker, indent below 4, and the rest of the line is
exactly two more markers. -/
def fmCloses (st : Doc) (c : Char) (j : Nat) : Bool :=
  let r := recOf st j
  let start := r.bMark + r.tShift
  srcAt st start = c && decide (r.sCount < 4) &&
    decide (srcSlice st (start + 1) r.eMark = [c, c])

/-- the closing-delimiter search of `_front_matter_lexer` (lines
120–140), at block indent 0 (front matter can only match as the first
block, hence at the top level).  Returns the line after the closing
delimiter, or `none` when the document ends first. -/
def fmScan (st : Doc) (c : Char) (endLine : Nat) : Nat → Nat → Option Nat
  | 0, _ => none
  | fuel + 1, nextLine =>
    let n := nextLine + 1
    if n ≥ endLine then none
    else if fmCloses st c n then some (n + 1)
    else fmScan st c endLine fuel n

/-- `_front_matter_lexer`: on success the `front_matter` token and the
new parser line; `none` when the rule declines (no token, no consumed
lines). -/
def fmLexer (st : Doc) (toks : List Token) (startLine endLine : Nat) :
    Option (Token × Nat) :=
  match fmOpenChar st toks startLine with
  | none => none
  | some c =>
    match fmScan st c endLine (endLine + 1) startLine with
    | none => none
    | some nl =>
      some (⟨.front_matter, (startLine, nl), "", ofChars [c],
        getLines st startLine nl 0, {}⟩, nl)

end Lex

/-!
Lexers from src/midgy/render.py: `_doctest_lexer`, `_code_lexer` and the
`code_fence` wrapper around the standard fence rule.
-/

/-- the compiled pattern `MAGIC = ^\s*%{2}\S+`. -/
def magicMatch (s : String) : Bool :=
  let r := (chars s).dropWhile pyWsChar
  match r with
  | '%' :: '%' :: c :: _ => !pyWsChar c
  | _ => false

/-- first four source characters of line `i`'s content. -/
def firstFour (st : Doc) (i : Nat) : List Char :=
  let r := recOf st i
  srcSlice st (r.bMark + r.tShift) (r.bMark + r.tShift + 4)

/-- the scanning loop of `_doctest_lexer`: state is
`(next, extra, output, closed)`. -/
def doctestScan (st : Doc) (endLine indent : Nat) :
    Nat → Nat → Nat → Nat → Bool → Nat × Nat × Nat
  | 0, next, extra, out, _ => (next, extra, out)
  | fuel + 1, next, extra, out, closed =>
    if next ≥ endLine then (next, extra, out)
    else if lineEmpty st next then (next, extra, out)
    else if (recOf st next).sCount < indent then (next, extra, out)
    else if firstFour st next = ['>', '>', '>', ' '] then (next, extra, out)
    else
      let n := next + 1
      if !closed && decide (firstFour st next = ['.', '.', '.', ' ']) then
        doctestScan st endLine indent fuel n n out false
      else
        doctestScan st endLine indent fuel n extra n true

/-- `_doctest_lexer` (render.py lines 284–335): a doctest block inside
an indented-code region becomes a `fence` token with info `pycon`,
carrying indent statistics and the input/output sub-spans. -/
def doctestLexer (st : Doc) (startLine endLine : Nat) : Option (Token × Nat) :=
  if (recOf st startLine).sCount < 4 then none
  else if firstFour st startLine = ['>', '>', '>', ' '] then
    let indent := (recOf st startLine).sCount
    let (next, extra, out) :=
      doctestScan st endLine indent (endLine + 1) (startLine + 1)
        (startLine + 1) (startLine + 1) false
    let content := getLines st startLine next 0
    some (⟨.fence, (startLine, next), "pycon", "", content,
      { first_indent := some indent, last_indent := some indent,
        min_indent := some indent,
        magic := some (magicMatch (lstrip (lstripChar (lstrip content) '>'))),
        inputSpan := some (startLine, extra),
        outputSpan := some (if extra < out then some (extra, out) else none) }⟩,
      next)
  else none

/-- the scanning loop of `_code_lexer`: state is
`(next, first_indent, last_indent, last_line)`. -/
def codeScan (st : Doc) (endLine : Nat) :
    Nat → Nat → Nat → Nat → Nat → Nat × Nat × Nat
  | 0, _, fi, li, ll => (fi, li, ll)
  | fuel + 1, next, fi, li, ll =>
    if next ≥ endLine then (fi, li, ll)
    else if lineEmpty st next then codeScan st endLine fuel (next + 1) fi li ll
    else if (recOf st next).sCount ≥ 4 then
      if firstFour st next = ['>', '>', '>', ' '] then (fi, li, ll)
      else
        let sc := (recOf st next).sCount
        codeScan st endLine fuel (next + 1) (if fi = 0 then sc else fi) sc next
    else (fi, li, ll)

/-- minimum of `sCount` over the non-empty lines with non-zero indent in
`[a, b)` — `min(...)` in `_code_lexer`; the scanned block always
contains such a line, so the `9999` default is never the result. -/
def minIndentOver (st : Doc) (a b : Nat) : Nat :=
  ((List.range (b - a)).filterMap (fun k =>
    if !lineEmpty st (a + k) && (recOf st (a + k)).sCount ≠ 0 then
      some (recOf st (a + k)).sCount
    else none)).foldl min 9999

/-- `_code_lexer` (render.py lines 246–281): indented code blocks with
indent statistics, stopping at doctest prompts. -/
def codeLexer (st : Doc) (startLine endLine : Nat) : Option (Token × Nat) :=
  if (recOf st startLine).sCount ≥ 4 then
    let (fi, li, ll) :=
      codeScan st endLine (endLine + 1) startLine 0 0 startLine
    let line := ll + 1
    let content := getLines st startLine line 4
    some (⟨.code_block, (startLine, line), "", "", content,
      { first_indent := some fi, last_indent := some li,
        min_indent := some (minIndentOver st startLine line),
        magic := some (magicMatch content) }⟩, line)
  else none

/-- search for the closing fence line: same marker, a run at least as
long as the opener, nothing but the marker run and trailing spaces,
indented less than 4 columns. -/
def fenceFindClose (st : Doc) (c : Char) (cnt : Nat) (endLine : Nat) :
    Nat → Nat → Option Nat
  | 0, _ => none
  | fuel + 1, j =>
    if j ≥ endLine then none
    else
      let r := recOf st j
      let body := chars (lineTail st j)
      let run := body.takeWhile (· = c)
      if r.sCount < 4 && decide (run.length ≥ cnt) &&
          (body.drop run.length).all (· = ' ') && decide (run.length > 0) then
        some j
      else fenceFindClose st c cnt endLine fuel (j + 1)

/-- the standard fence rule (delegated to by `code_fence`), simplified
to backtick/tilde runs of length ≥ 3 at indent < 4; an unclosed fence
runs to the end of the document, as in markdown-it. -/
def fenceStd (st : Doc) (startLine endLine : Nat) :
    Option (Nat × String × String × Nat) :=
  let r := recOf st startLine
  if r.sCount ≥ 4 then none
  else
    let body := chars (lineTail st startLine)
    let c := body.getD 0 ' '
    if c = '`' || c = '~' then
      let cnt := (body.takeWhile (· = c)).length
      if cnt < 3 then none
      else
        let info := pyStrip (ofChars (body.drop cnt))
        if c = '`' && containsChar info '`' then none
        else
          match fenceFindClose st c cnt endLine (endLine + 1) (startLine + 1) with
          | some nl => some (nl + 1, info, ofChars (List.replicate cnt c), nl)
          | none => some (endLine, info, ofChars (List.replicate cnt c), endLine)
    else none

/-- `code_fence` (render.py lines 338–358): run the standard fence rule,
then add the indent statistics over the interior lines. -/
def fenceLexer (st : Doc) (startLine endLine : Nat) : Option (Token × Nat) :=
  match fenceStd st startLine endLine with
  | none => none
  | some (line, info, markup, nextLine) =>
    let content := getLines st (startLine + 1) nextLine (recOf st startLine).sCount
    let extent := List.range (line - 1 - (startLine + 1))
    let fi := (extent.head?.map (fun k => (recOf st (startLine + 1 + k)).sCount)).getD 0
    let li := ((extent.getLast?).map (fun k => (recOf st (startLine + 1 + k)).sCount)).getD 0
    let mins := extent.filterMap (fun k =>
      if !lineEmpty st (startLine + 1 + k) then
        some (recOf st (startLine + 1 + k)).sCount
      else none)
    some (⟨.fence, (startLine, line), info, markup, content,
      { first_indent := some fi, last_indent := some li,
        min_indent := some (mins.foldl min ((mins.head?.getD 0))),
        magic := some (magicMatch content) }⟩, line)

/-- skip whitespace-only lines, as the block tokenizer loop does. -/
def skipEmpty (st : Doc) (endLine : Nat) : Nat → Nat → Nat
  | 0, i => i
  | fuel + 1, i =>
    if i ≥ endLine then i
    else if lineEmpty st i then skipEmpty st endLine fuel (i + 1)
    else i

/-- the paragraph rule, simplified to its effect on this grammar:
consume lines until a blank line.  (None of the midgy rules is allowed
to interrupt a paragraph — they are registered without `alt` — and the
other interrupting host rules concern constructs not modelled here.) -/
def paraEnd (st : Doc) (endLine : Nat) : Nat → Nat → Nat
  | 0, j => j
  | fuel + 1, j =>
    if j ≥ endLine then j
    else if lineEmpty st j then j
    else paraEnd st endLine fuel (j + 1)

/-- one step of the block tokenizer: try the rules in their registered
order (shebang, front_matter, doctest, code, fence, paragraph). -/
def tokenizeStep (st : Doc) (endLine : Nat) (toks : List Token) (line : Nat) :
    Token × Nat :=
  match Lex.shebangLexer st line with
  | some t => (t, t.tmap.2)
  | none =>
  match Lex.fmLexer st toks line endLine with
  | some (t, nl) => (t, nl)
  | none =>
  match doctestLexer st line endLine with
  | some (t, nl) => (t, nl)
  | none =>
  match codeLexer st line endLine with
  | some (t, nl) => (t, nl)
  | none =>
  match fenceLexer st line endLine with
  | some (t, nl) => (t, nl)
  | none =>
    let pe := paraEnd st endLine (endLine + 1) (line + 1)
    (⟨.para, (line, pe), "", "", "", {}⟩, pe)

/-- the block tokenizer loop. -/
def tokenizeAux (st : Doc) (endLine : Nat) :
    Nat → Nat → List Token → List Token
  | 0, _, toks => toks
  | fuel + 1, line, toks =>
    let line := skipEmpty st endLine (endLine + 1) line
    if line ≥ endLine then toks
    else
      let (t, nl) := tokenizeStep st endLine toks line
      tokenizeAux st endLine fuel (max nl (line + 1)) (toks ++ [t])

/-- `Renderer.parse`: tokenize a source string. -/
def tokenize (src : String) : List Token :=
  let st := mkDoc src
  tokenizeAux st (lineMax st) (lineMax st + 1) 0 []

/-!
The renderer: `Renderer` from src/midgy/render.py and its subclass
`Python` from src/midgy/python.py.  Generators become functions
returning the list of yielded fragments; generators that advance the
read cursor also return the updated environment.
-/

/-- fragment lists yielded by the generators. -/
abbrev Frags := List String

/-- `escape` from render.py: put a backslash before every quote. -/
def escape (s : String) : String :=
  ofChars ((chars s).flatMap (fun c =>
    if c = '\'' || c = '"' then ['\\', c] else [c]))

/-- look up a meta key holding a number. -/
def metaNat (v : Option Nat) (k : String) : Except Err Nat :=
  match v with
  | some n => .ok n
  | none => .error (.keyError k)

/-- look up a meta key holding a flag. -/
def metaBool (v : Option Bool) (k : String) : Except Err Bool :=
  match v with
  | some b => .ok b
  | none => .error (.keyError k)

/-- the triple quote `Python.QUOTE`. -/
def QUOTE : String := "\"\"\""

/-- `Renderer.get_updated_env`: classify the trailing characters of the
token content. -/
def get_updated_env (tok : Token) (env : Env) : Env :=
  let left := rstrip tok.content
  { env with
    colon_block := endsWithStr left ":",
    quoted_block := endsWithStr left "\"\"\"" || endsWithStr left "'''",
    continued := endsWithStr left "\\" }

/-- `Renderer.is_code_block`. -/
def is_code_block (cfg : Config) (tok : Token) : Bool :=
  if cfg.include_indented_code && tok.ttype = .code_block then true
  else if tok.ttype = .fence then
    tok.info ∈ cfg.include_code_fences ||
      (cfg.include_doctest && tok.info = "pycon")
  else false

/-- `Python.get_computed_indent` (python.py lines 137–148). -/
def get_computed_indent (env : Env) : Except Err Nat := do
  let next_indent ←
    match env.next_code with
    | some t => metaNat t.tmeta.first_indent "first_indent"
    | none => pure 0
  let prior := env.last_indent
  let spaces :=
    if env.colon_block then
      if next_indent > prior then next_indent else prior + 4
    else prior
  pure (max spaces env.min_indent - env.min_indent)

/-- `Python.wrap_lines` (python.py lines 186–209).  State:
`lead` is consumed by the first content line, `anyF` whether a content
line has been emitted, `ws` the deferred trailing whitespace of the last
content line (plus any blank lines since), `contF` whether the last
content line ended with a line continuation. -/
def contOf (line : String) : Bool :=
  decide ((chars line).getD (pyLen (rstrip line) - 1) ' ' = '\\')

def contentLen (line : String) : Nat :=
  pyLen (rstrip line) - (if contOf line then 1 else 0)

def wrapAux (pre trail contn : String) :
    List String → String → String → Bool → Bool → Frags
  | [], lead, ws, anyF, contF =>
    let _ := lead
    (if anyF then [trail] else []) ++
      (if contF then
        (splitNl ws).enum.flatMap (fun p =>
          [if p.1 = 0 then "" else pre, pyTake p.2 (pyLen p.2 - 1),
            if p.1 = 0 then "" else "\\", pyDrop p.2 (pyLen p.2 - 1)])
      else [ws])
  | line :: rest, lead, ws, anyF, contF =>
    if pyLen (rstrip line) = 0 then
      wrapAux pre trail contn rest lead (ws ++ line) anyF contF
    else
      (if anyF then [ws]
       else (splitNl ws).flatMap (fun l =>
        [pre, pyTake l (pyLen l - 1), contn, pyDrop l (pyLen l - 1)])) ++
      [pre, lead, pyTake line (contentLen line)] ++
      wrapAux pre trail contn rest "" (pyDrop line (contentLen line)) true (contOf line)

/-- `Python.wrap_lines` with its keyword defaults. -/
def wrap_lines (lines : List String) (lead pre trail contn : String) : Frags :=
  wrapAux pre trail contn lines lead "" false false

/-- `Python.comment`: prefix the block with `# ` at the computed
indent. -/
def comment (block : Frags) (env : Env) : Except Err Frags := do
  let ind ← get_computed_indent env
  pure (wrap_lines block "" (SPn ind ++ "# ") "" "")

/-- `Python.dedent_block` (python.py lines 67–68): slice `dedent`
characters off every line — with no guard for short lines, so a line
shorter than `dedent` (such as a blank line `"\n"`) loses all of its
characters, newline included. -/
def dedent_block (block : List String) (dedent : Nat) : List String :=
  block.map (fun x => pyDrop x dedent)

/-- `Renderer.non_code` (the base class part): read the buffer up to the
next token and record its trailing indent. -/
def base_non_code (env : Env) (nxt : Option Token) : List String × Env :=
  let (ls, env1) := get_block env (nxt.map (·.tmap.fst))
  match nxt with
  | some t => (ls, { env1 with last_indent := t.tmeta.last_indent.getD 0 })
  | none => (ls, env1)

/-- `Python.non_code_block_string` (python.py lines 159–169): quote the
prose block.  The computed indent and the continuation flag are read
before the buffer is consumed. -/
def non_code_block_string (env : Env) (nxt : Option Token) :
    Except Err (Frags × Env) := do
  let lead := QUOTE
  let trail := QUOTE ++ (if nxt.isNone then ";" else "")
  let ind ← get_computed_indent env
  let contn := if env.continued then "\\" else ""
  let (body, env1) := base_non_code env nxt
  pure (wrap_lines (body.map escape) (SPn ind ++ lead) "" trail contn, env1)

/-- `Python.non_code_comment`. -/
def non_code_comment (env : Env) (nxt : Option Token) :
    Except Err (Frags × Env) := do
  let ind ← get_computed_indent env
  let (body, env1) := base_non_code env nxt
  pure (wrap_lines body "" (SPn ind ++ "# ") "" "", env1)

/-- `Python.non_code` (python.py lines 150–157): pass through when the
previous code left a quoted literal open, otherwise stringify or
comment. -/
def non_code (cfg : Config) (env : Env) (nxt : Option Token) :
    Except Err (Frags × Env) :=
  if env.quoted_block then
    let (b, env1) := base_non_code env nxt
    pure (wrap_lines b "" "" "" "", env1)
  else if cfg.include_markdown then non_code_block_string env nxt
  else non_code_comment env nxt

/-- `Python.is_magic`. -/
def is_magic (cfg : Config) (tok : Token) : Except Err Bool :=
  if cfg.include_magic then do
    let b ← metaBool tok.tmeta.magic "magic"
    pure (b || (tok.ttype = .fence && tok.info = "ipython"))
  else pure (tok.ttype = .fence && tok.info = "ipython")

/-- `Python.code_block_magic` (python.py lines 48–62): `next(block)` on
an empty buffer raises, hence the error case. -/
def code_block_magic (block : List String) (indent : Nat) (env : Env)
    (dedent : Bool) : Except Err Frags := do
  match block with
  | [] => .error .stopIteration
  | line :: rest =>
    let left := rstrip line
    let (program, args) := partitionSpace (lstripChar (lstrip left) '%')
    let ind ← get_computed_indent env
    let rest2 := if dedent then dedent_block rest indent else rest
    pure ([SPn ind, "get_ipython().run_cell_magic('", program, "', '",
      args, "',", pyDrop line (pyLen left)] ++
      wrap_lines rest2 QUOTE "" (QUOTE ++ ")") "")

/-- `Python.code_block_body`. -/
def code_block_body (cfg : Config) (block : List String) (tok : Token)
    (env : Env) : Except Err Frags := do
  let m ← is_magic cfg tok
  if m then do
    let mi ← metaNat tok.tmeta.min_indent "min_indent"
    code_block_magic block mi env true
  else pure (dedent_block block env.min_indent)

/-- `Python.code_block` (python.py lines 41–46). -/
def code_block (cfg : Config) (tok : Token) (env : Env) :
    Except Err (Frags × Env) := do
  if cfg.include_indented_code then
    let (o1, env1) ← non_code cfg env (some tok)
    let (bl, env2) := get_block env1 (some tok.tmap.snd)
    let o2 ← code_block_body cfg bl tok env2
    pure (o1 ++ o2, get_updated_env tok env2)
  else pure ([], env)

/-- `Python.doctest_code_input` (python.py lines 75–79): strip the
4-character prompt from each input line, keeping the indentation beyond
the document `min_indent`. -/
def doctest_code_input (tok : Token) (env : Env) :
    Except Err (List String × Env) := do
  match tok.tmeta.inputSpan with
  | none => .error (.keyError "input")
  | some (_, b) =>
    let (ls, env1) := get_block env (some b)
    pure (ls.map (fun line =>
      let right := lstrip line
      pyDrop (pyTake line (pyLen line - pyLen right)) env.min_indent ++
        pyDrop right 4), env1)

/-- `Python.doctest_code` (python.py lines 81–98): promote the input
span to live code and comment the output span. -/
def doctest_code (cfg : Config) (tok : Token) (env : Env) :
    Except Err (Frags × Env) := do
  let (o1, env1) ← non_code cfg env (some tok)
  let mg ← metaBool tok.tmeta.magic "magic"
  let (o2, env2) ←
    if mg then do
      let (inp, e) ← doctest_code_input tok env1
      let mi ← metaNat tok.tmeta.min_indent "min_indent"
      let frags ← code_block_magic inp mi e false
      pure (frags, e)
    else doctest_code_input tok env1
  let outv ←
    match tok.tmeta.outputSpan with
    | none => .error (Err.keyError "output")
    | some v => pure v
  let (o3, env3) ←
    match outv with
    | some (_, oe) => do
      let (bl, e2) := get_block env2 (some oe)
      let mi ← metaNat tok.tmeta.min_indent "min_indent"
      let c ← comment (dedent_block bl mi) e2
      pure ((c, e2) : Frags × Env)
    | none => pure ([], env2)
  let env4 := get_updated_env tok env3
  pure (o1 ++ o2 ++ o3,
    { env4 with colon_block := false, quoted_block := false, continued := false })

/-- `Python.doctest_comment` (python.py lines 70–73). -/
def doctest_comment (cfg : Config) (tok : Token) (env : Env) :
    Except Err (Frags × Env) := do
  let (o1, env1) ← non_code cfg env (some tok)
  let (bl, env2) := get_block env1 (some tok.tmap.snd)
  let c ← comment bl env2
  pure (o1 ++ c, env2)

/-- `Python.fence_pycon` (python.py lines 100–110). -/
def fence_pycon (cfg : Config) (tok : Token) (env : Env) :
    Except Err (Frags × Env) := do
  if cfg.include_doctest then
    let (o1, env1) ← non_code cfg env (some tok)
    let (o2, env2) ← doctest_code cfg tok env1
    pure (o1 ++ o2, env2)
  else if cfg.include_docstring && cfg.include_markdown then pure ([], env)
  else doctest_comment cfg tok env

/-- `Python.fence_python` (python.py lines 112–124). -/
def fence_python (cfg : Config) (tok : Token) (env : Env) :
    Except Err (Frags × Env) := do
  if tok.info ∈ cfg.include_code_fences then
    let (o1, env1) ← non_code cfg env (some tok)
    let (l1, env2) := get_block env1 (some (tok.tmap.fst + 1))
    let o2 ← comment l1 env2
    let (bl, env3) := get_block env2 (some (tok.tmap.snd - 1))
    let o3 ← code_block_body cfg bl tok env3
    let env4 := get_updated_env tok env3
    let (l2, env5) := get_block env4 (some tok.tmap.snd)
    let o4 ← comment l2 env5
    pure (o1 ++ o2 ++ o3 ++ o4, env5)
  else pure ([], env)

/-- `Renderer.fence` dispatch: `getattr(self, f"fence_{token.info}")`;
only `fence_python` and `fence_pycon` exist on `Python`. -/
def fence (cfg : Config) (tok : Token) (env : Env) :
    Except Err (Frags × Env) :=
  if tok.info = "python" then fence_python cfg tok env
  else if tok.info = "pycon" then fence_pycon cfg tok env
  else pure ([], env)

/-- the class attribute `Python.front_matter_loader`. -/
def front_matter_loader : String := "__import__(\"midgy\").front_matter.load"

/-- `Python.front_matter` (python.py lines 126–135). -/
def front_matter (cfg : Config) (tok : Token) (env : Env) :
    Except Err (Frags × Env) := do
  if cfg.include_front_matter then
    let lead := "locals().update(" ++ front_matter_loader ++ "(" ++ QUOTE
    let trail := QUOTE ++ "))"
    let (body, env1) := get_block env (some tok.tmap.snd)
    pure (wrap_lines body lead "" trail "", env1)
  else
    let (bl, env1) := get_block env (some tok.tmap.snd)
    let c ← comment bl env
    pure (c, env1)

/-- `Python.shebang` (python.py lines 182–184). -/
def shebang (tok : Token) (env : Env) : Frags × Env :=
  let (bl, env1) := get_block env (some tok.tmap.snd)
  (wrap_lines bl "" "" "" "", env1)

/-- `Renderer.render_token`: dispatch on the token type name; token
types without a renderer method yield nothing. -/
def render_token (cfg : Config) (tok : Token) (env : Env) :
    Except Err (Frags × Env) :=
  match tok.ttype with
  | .code_block => code_block cfg tok env
  | .fence => fence cfg tok env
  | .front_matter => front_matter cfg tok env
  | .shebang => pure (shebang tok env)
  | _ => pure ([], env)

/-- `Renderer.walk_code_blocks`: pair each code token with the generic
tokens before it; the trailing generic tokens are paired with `None`. -/
def walk_code_blocks (cfg : Config) : List Token → List Token →
    List (List Token × Option Token)
  | prior, [] => [(prior, none)]
  | prior, t :: ts =>
    if is_code_block cfg t then (prior, some t) :: walk_code_blocks cfg [] ts
    else walk_code_blocks cfg (prior ++ [t]) ts

/-- render the tokens of one generic/code pair. -/
def runList (cfg : Config) : List Token → Env → Except Err (Frags × Env)
  | [], env => pure ([], env)
  | t :: ts, env => do
    let (o1, env1) ← render_token cfg t env
    let (o2, env2) ← runList cfg ts env1
    pure (o1 ++ o2, env2)

/-- the pair loop of `Renderer.render_tokens`: set `env["next_code"]`
and render the generic tokens followed by the code token. -/
def runPairs (cfg : Config) : List (List Token × Option Token) → Env →
    Except Err (Frags × Env)
  | [], env => pure ([], env)
  | (gen, code) :: ps, env => do
    let env0 := { env with next_code := code }
    let (o1, env1) ← runList cfg (gen ++ code.toList) env0
    let (o2, env2) ← runPairs cfg ps env1
    pure (o1 ++ o2, env2)

/-- `Renderer.get_initial_env`: the document-wide `min_indent` is the
minimum of the `min_indent` meta over code-classified tokens. -/
def get_initial_env (cfg : Config) (src : String) (tokens : List Token) :
    Except Err Env := do
  let mi ← tokens.foldlM (fun (acc : Option Nat) t =>
    if is_code_block cfg t then do
      let m ← metaNat t.tmeta.min_indent "min_indent"
      pure (some (min (acc.getD 9999) m))
    else pure acc) none
  pure { src := splitNl src, min_indent := mi.getD 0 }

/-- `Renderer.get_front_matter` (render.py lines 191–199): skip shebang
tokens; load the content of a leading `front_matter` token.  The loader
(`front_matter.load`, a collaborator outside the embedded sources) is a
parameter. -/
def get_front_matter (load : String → Option FM) : List Token → Option FM
  | [] => none
  | t :: ts =>
    if t.ttype = .shebang then get_front_matter load ts
    else if t.ttype = .front_matter then load t.content
    else none

/-- `Renderer.renderer_from_tokens` (render.py lines 145–152): front
matter carrying an entry under `config_key` replaces the renderer by a
freshly constructed one built from that entry alone. -/
def renderer_from_tokens (cfg : Config) (load : String → Option FM)
    (tokens : List Token) : Config :=
  match get_front_matter load tokens with
  | some fm =>
    match fmGet fm cfg.config_key with
    | some c => c
    | none => cfg
  | none => cfg

/-- the body of `Renderer.render_tokens` after the renderer has been
(re)chosen: walk the pairs, then flush the remaining buffer as
non-code. -/
def renderTokensWith (cfg : Config) (tokens : List Token) (env0 : Option Env)
    (src : String) (stop : Option Token) : Except Err String := do
  let env ←
    match env0 with
    | some e => pure e
    | none => get_initial_env cfg src tokens
  let (o, env1) ← runPairs cfg (walk_code_blocks cfg [] tokens) env
  let (o2, _) ← non_code cfg env1 stop
  pure (flat (o ++ o2))

/-- `Renderer.render_tokens` (render.py lines 160–176). -/
def render_tokens (cfg : Config) (load : String → Option FM)
    (tokens : List Token) (env0 : Option Env) (src : String)
    (stop : Option Token) : Except Err String :=
  renderTokensWith (renderer_from_tokens cfg load tokens) tokens env0 src stop

/-- `Python.render` (python.py lines 175–180): cell-magic sources are
rewritten directly; everything else goes through parse and
`render_tokens`. -/
def render (cfg : Config) (load : String → Option FM) (src : String) :
    Except Err String :=
  if magicMatch src then
    (code_block_magic (splitNl (pyDedent src)) 0 {} true).map flat
  else render_tokens cfg load (tokenize src) none src none

/-- does an `hr` token split cells (`walk_cells`): marker length,
spaces not counted, strictly above `cell_hr_length`. -/
def isCellBreak (cfg : Config) (tok : Token) : Bool :=
  tok.ttype = .hr && decide (pyLen tok.markup - countSpaces tok.markup > cfg.cell_hr_length)

/-- `Renderer.walk_cells` (render.py lines 201–216) with the default
`include_hr=True`: short `hr` tokens are dropped from the running block,
a sufficiently long one closes the block and starts the next block with
itself; the last non-empty block is yielded with no separator. -/
def walkCellsAux (cfg : Config) : List Token → List Token →
    List (List Token × Option Token)
  | block, [] => if block = [] then [] else [(block, none)]
  | block, t :: ts =>
    if t.ttype = .hr then
      if pyLen t.markup - countSpaces t.markup > cfg.cell_hr_length then
        (block, some t) :: walkCellsAux cfg [t] ts
      else walkCellsAux cfg block ts
    else walkCellsAux cfg (block ++ [t]) ts

/-- `Renderer.walk_cells` entry point. -/
def walk_cells (cfg : Config) (tokens : List Token) :
    List (List Token × Option Token) :=
  walkCellsAux cfg [] tokens

namespace Lang

/-!
The fence-method resolver and non-code fence renderer of the
second-generation translator, src/midgy/language/python.py
(`Python.get_fence_method`, `Python.fence_noncode`, with the helpers
they use from src/midgy/tangle.py).
-/

/-- token meta for this generation (`postlex` stores `next_code` on
every token; `None` marks a fence with no following code block). -/
structure LMeta where
  first_indent : Option Nat := none
  last_indent : Option Nat := none
  min_indent : Option Nat := none
  next_code : Option (Option Unit) := none
  deriving DecidableEq, Repr

/-- a token as consumed by `fence_noncode`. -/
structure LTok where
  tmap : Nat × Nat
  info : String := ""
  markup : String := ""
  tmeta : LMeta := {}
  deriving DecidableEq, Repr

/-- the environment dict of this generation (the fields `fence_noncode`
and `get_indent` read). -/
structure LEnv where
  src : List String := []
  last_line : Nat := 0
  min_indent : Nat := 0
  last_indent : Nat := 0
  indented : Bool := false
  continued : Bool := false
  next_code : Option LTok := none
  deriving DecidableEq, Repr

/-- `Tangle.generate_block_lines` restricted to a concrete stop. -/
def genBlock (env : LEnv) (stop : Nat) : List String × LEnv :=
  ((List.range (stop - env.last_line)).map
    (fun k => env.src.getD (env.last_line + k) ""),
   { env with last_line := max env.last_line stop })

/-- `Tangle.generate_dedent_block`: `x[dedent:] if len(x) > 1 else x`;
a `None` dedent (missing `min_indent` meta) slices nothing. -/
def genDedent (block : List String) (dedent : Option Nat) : List String :=
  block.map (fun x =>
    if pyLen x > 1 then
      match dedent with
      | some n => pyDrop x n
      | none => x
    else x)

/-- `Python.escape` of this generation: double backslashes, then escape
double quotes. -/
def escapeL (s : String) : String :=
  ofChars ((chars s).flatMap (fun c =>
    if c = '\\' then ['\\', '\\'] else if c = '"' then ['\\', '"'] else [c]))

/-- `Python.get_lang`: first word of the fence info string. -/
def get_lang (tok : LTok) : String :=
  match (chars tok.info).dropWhile pyWsChar with
  | [] => ""
  | l => ofChars (l.takeWhile (fun c => !pyWsChar c))

/-- the `Python.fence_methods` mapping. -/
def fence_methods : List (String × String) :=
  [("ini", "midgy.front_matter:get_ini"),
   ("cfg", "midgy.front_matter:get_ini"),
   ("json", "json:loads"),
   ("json5", "json5:loads"),
   ("yaml", "yaml:safe_load"),
   ("yml", "yaml:safe_load"),
   ("toml", "tomli:loads"),
   ("front_matter", "midgy.front_matter:load"),
   ("css", "midgy.language.python:Css"),
   ("html", "midgy.language.python:HTML"),
   ("markdown", "midgy.language.python:Markdown"),
   ("javascript", "midgy.language.python:Script"),
   ("graphviz", "midgy.language.python:DOT"),
   ("dot", "midgy.language.python:DOT"),
   ("md", "midgy.language.python:Markdown"),
   ("!", "midgy.language.python:_shell_out")]

/-- `fence_methods.get(lang, lang)`. -/
def resolveFence (lang : String) : String :=
  ((fence_methods.find? (fun p => p.fst = lang)).map (·.snd)).getD lang

/-- `method.partition(":")[::2]`. -/
def splitColon (s : String) : String × String :=
  let l := chars s
  let pre := l.takeWhile (· ≠ ':')
  if pre.length = l.length then (ofChars l, "")
  else (ofChars pre, ofChars (l.drop (pre.length + 1)))

/-- the dynamic-import expression emitted for a module-qualified
method. -/
def importExprOf (m : String) : String :=
  "__import__(\"importlib\").import_module(\"" ++ (splitColon m).fst ++
    "\")." ++ (splitColon m).snd

/-- `Python.get_fence_method` (language/python.py lines 303–311): map
the info language through `fence_methods` (identity when absent); a
resolved name containing `:` becomes a dynamic-import expression,
anything else resolves to no method at all. -/
def get_fence_method (tok : LTok) : String :=
  let lang := get_lang tok
  let method := resolveFence lang
  if containsChar method ':' then importExprOf method else ""

/-- `Python.get_indent` (language/python.py lines 313–335). -/
def get_indent (env : LEnv) : Nat :=
  let indent := max env.last_indent env.min_indent
  let indent :=
    if env.indented then
      match env.next_code with
      | some nxt =>
        let ni := nxt.tmeta.first_indent.getD 0
        if ni > indent then ni else indent + 4
      | none => indent + 4
    else indent
  indent - env.min_indent

/-- `Python.fence_noncode` (language/python.py lines 194–235): wrap the
fence body as an escaped triple-quoted string, preceded by the resolved
loader call when there is one; the opening and closing fence lines are
commented out in place. -/
def fenceWrap (tok : LTok) (env : LEnv) (tail : Frags) : Frags :=
  [SPn (get_indent env)] ++
    (if get_fence_method tok ≠ "" then ["(" ++ get_fence_method tok] else []) ++
    ["( # "] ++ (genBlock env (tok.tmap.fst + 1)).fst ++ [QUOTE] ++
    (genDedent ((genBlock (genBlock env (tok.tmap.fst + 1)).snd
        (tok.tmap.snd - 1)).fst) tok.tmeta.min_indent).map escapeL ++
    [QUOTE, ")"] ++ (if get_fence_method tok ≠ "" then [")"] else []) ++
    [" # "] ++ tail

def fenceRest (tok : LTok) (env : LEnv) : Frags :=
  (genBlock (genBlock (genBlock env (tok.tmap.fst + 1)).snd
      (tok.tmap.snd - 1)).snd tok.tmap.snd).fst

def fenceEnvAfter (tok : LTok) (env : LEnv) : LEnv :=
  let env3 := (genBlock (genBlock (genBlock env (tok.tmap.fst + 1)).snd
      (tok.tmap.snd - 1)).snd tok.tmap.snd).snd
  { env3 with
    continued := if get_fence_method tok ≠ "" then false else env3.continued }

def fence_noncode (tok : LTok) (env : LEnv) : Except Err (Frags × LEnv) :=
  match tok.tmeta.next_code with
  | none => .error (Err.keyError "next_code")
  | some none =>
    match fenceRest tok env with
    | [] => .error Err.stopIteration
    | last :: _ =>
      if last = "" then .error Err.indexError
      else
        .ok (fenceWrap tok env ([pyTake last (pyLen last - 1)] ++
          (if get_fence_method tok = "" then [";"] else []) ++
          [pyDrop last (pyLen last - 1)]), fenceEnvAfter tok env)
  | some (some _) => .ok (fenceWrap tok env (fenceRest tok env), fenceEnvAfter tok env)

end Lang

/-!
Direct formalizations of claim statements (used to compare the spec's
wording with the behaviour of the embedded source).
-/

/-- the condition on the token list under which the front matter rule
may fire: first block, or first block after a shebang. -/
def fmFirstCond (toks : List Token) : Prop :=
  toks = [] ∨ (toks.length = 1 ∧ (toks.getLast?.map (·.ttype)) = some .shebang)

instance (toks : List Token) : Decidable (fmFirstCond toks) := by
  unfold fmFirstCond; infer_instance

/-- the spec's front matter trigger line, as claimed: three **or more**
identical delimiter characters drawn from `-`/`+`, nothing else on the
line. -/
def claimFmLine (line : String) : Bool :=
  let l := chars line
  decide (l.length ≥ 3) && l.all (· = l.getD 0 ' ') &&
    (l.getD 0 ' ' = '-' || l.getD 0 ' ' = '+')

/-- the spec's shebang line, as claimed: `#!` followed by a token and an
**optional** argument (so `#!cmd` alone should match). -/
def claimShebangLine (line : String) : Bool :=
  match chars line with
  | '#' :: '!' :: c :: _ => !pyWsChar c
  | _ => false

/-- first token that is not a shebang (the spec's description of where
front matter configuration is read from). -/
def firstNonShebang : List Token → Option Token
  | [] => none
  | t :: ts => if t.ttype = .shebang then firstNonShebang ts else some t

/-- the doctest prompt strings. -/
def prompts : List String := [">>> ", "... "]

/-- a line whose content is non-blank and whose content does not end in
a backslash (the shape `wrap_lines` treats uniformly). -/
def cleanLine (l : String) : Prop :=
  pyLen (rstrip l) ≠ 0 ∧ (chars l).getD (pyLen (rstrip l) - 1) ' ' ≠ '\\'

instance (l : String) : Decidable (cleanLine l) := by
  unfold cleanLine; infer_instance

/-- a fence token with an unknown info string (no loader resolves). -/
def w9tok : Lang.LTok :=
  { tmap := (0, 3), info := "mystery", markup := "```",
    tmeta := { min_indent := some 0, next_code := some (some ()) } }

/-- the buffer for the unknown fence. -/
def w9env : Lang.LEnv := { src := ["```mystery\n", "body\n", "```\n"] }

/-- a fence token whose info string resolves through `fence_methods` to
a module-qualified loader. -/
def w9ytok : Lang.LTok :=
  { tmap := (0, 3), info := "yaml", markup := "```",
    tmeta := { min_indent := some 0, next_code := some (some ()) } }

/-- the buffer for the yaml fence. -/
def w9yenv : Lang.LEnv := { src := ["```yaml\n", "a: 1\n", "```\n"] }

/-- a front matter token whose payload configures the `py` key. -/
def w10fm : Token :=
  { ttype := .front_matter, tmap := (0, 3), content := "---\npy:\n---\n" }

/-- the configuration carried by the front matter entry. -/
def w10cfg : Config := { include_markdown := false, cell_hr_length := 5 }

/-- a loader (the `front_matter.load` collaborator) returning that
entry for the witness payload. -/
def w10load : String → Option FM :=
  fun s => if s = "---\npy:\n---\n" then some [("py", w10cfg)] else none

/-- a four-dash opening line: front matter per the claim's "three or
more", but not for the code. -/
def w6doc : Doc := mkDoc "----\nx\n----\n"

/-- an unterminated front matter document. -/
def w7doc : Doc := mkDoc "---\nhello\n"

/-- a shebang line with no whitespace after the interpreter. -/
def w8doc : Doc := mkDoc "#!python\nx\n"

/-- a shebang line with an argument. -/
def w8good : Doc := mkDoc "#!/usr/bin/env midgy\nx\n"

/-- the token the shebang rule produces on `w8good`. -/
def w8tok : Token :=
  { ttype := .shebang, tmap := (0, 1), content := "#!/usr/bin/env midgy\n" }

/-- a generic token for the cell-splitting statements. -/
def w5a : Token := { ttype := .para, tmap := (0, 1) }

/-- a thematic break of effective length 10 (qualifies at the default
width 9). -/
def w5h : Token := { ttype := .hr, tmap := (1, 2), markup := "----------" }

/-- a second generic token. -/
def w5b : Token := { ttype := .para, tmap := (2, 3) }

/-- concrete token for the computed-indent witness. -/
def w2tok : Token :=
  { ttype := .code_block, tmap := (2, 3), tmeta := { first_indent := some 8 } }

/-- concrete environment for the computed-indent witness: a colon block
at indent 4 followed by code at indent 8, document baseline 2. -/
def w2env : Env :=
  { min_indent := 2, last_indent := 4, colon_block := true,
    next_code := some w2tok }

/-- the doctest token produced for the document
`"    >>> 1 + 1\n    2\n"`: an implicit `pycon` fence over lines 0-2,
input span line 0, output span line 1, all indents 4. -/
def w4tok : Token :=
  { ttype := .fence, tmap := (0, 2), info := "pycon",
    tmeta :=
      { first_indent := some 4, last_indent := some 4, min_indent := some 4,
        magic := some false, inputSpan := some (0, 1),
        outputSpan := some (some (1, 2)) } }

/-- the buffer and initial environment for the doctest document. -/
def w4env : Env :=
  { src := ["    >>> 1 + 1\n", "    2\n"], min_indent := 4,
    next_code := some w4tok }

end Midgy

namespace Midgy

theorem flat_append (a b : List String) : flat (a ++ b) = flat a ++ flat b := by
  induction a with
  | nil => simp [flat]
  | cons x xs ih => simp [flat, ih, String.append_assoc]

theorem chars_append (s t : String) : chars (s ++ t) = chars s ++ chars t := by
  cases s; cases t; rfl

theorem ofChars_chars (s : String) : ofChars (chars s) = s := rfl

theorem chars_ofChars (l : List Char) : chars (ofChars l) = l := rfl

theorem pyTake_append_pyDrop (s : String) (n : Nat) :
    pyTake s n ++ pyDrop s n = s := by
  cases s with
  | mk l => exact congrArg String.mk (List.take_append_drop n l)

/-- C2: the indent computed for a prose block equals the spec's
formula: with `prior = last_indent` and `next_indent` the next code
token's first indent (0 when there is none), the result is
`next_indent` if the colon flag is set and `next_indent > prior`, else
`prior + 4` under the colon flag, else `prior`; the returned value is
`max(result, min_indent) - min_indent`, never negative; and under a
colon block a strictly deeper following code indent is preferred. -/
theorem claim2_computed_indent (env : Env) (n : Nat)
    (h : match env.next_code with
         | some t => t.tmeta.first_indent = some n
         | none => n = 0) :
    get_computed_indent env =
      .ok (max (if env.colon_block then
            if n > env.last_indent then n else env.last_indent + 4
          else env.last_indent) env.min_indent - env.min_indent) ∧
    (0 : Int) ≤ ((max (if env.colon_block then
            if n > env.last_indent then n else env.last_indent + 4
          else env.last_indent) env.min_indent : Int) - (env.min_indent : Int)) ∧
    (env.colon_block = true → n > env.last_indent →
      get_computed_indent env = .ok (max n env.min_indent - env.min_indent)) := by
  have hgci : get_computed_indent env =
      .ok (max (if env.colon_block then
            if n > env.last_indent then n else env.last_indent + 4
          else env.last_indent) env.min_indent - env.min_indent) := by
    cases hnc : env.next_code with
    | none =>
      rw [hnc] at h
      subst h
      simp only [get_computed_indent, hnc]
      rfl
    | some t =>
      rw [hnc] at h
      simp [get_computed_indent, hnc, h, metaNat]
  refine ⟨hgci, ?_, ?_⟩
  · have : (env.min_indent : Int) ≤
        (max (if env.colon_block then
            if n > env.last_indent then n else env.last_indent + 4
          else env.last_indent) env.min_indent : Int) := by
      exact_mod_cast Nat.le_max_right _ _
    omega
  · intro hc hlt
    rw [hgci, hc]
    simp [hlt]

/-- C2 witness: colon block at indent 4, next code at indent 8,
baseline 2; the prose lands at column 6 (8 − 2). -/
theorem claim2_computed_indent_witness :
    (match w2env.next_code with
     | some t => t.tmeta.first_indent = some 8
     | none => (8 : Nat) = 0) ∧
    get_computed_indent w2env = .ok 6 ∧
    w2env.colon_block = true := by
  have hh : (match w2env.next_code with
      | some t => t.tmeta.first_indent = some 8
      | none => (8 : Nat) = 0) := by
    simp [w2env, w2tok]
  refine ⟨hh, ?_, by decide⟩
  have h := claim2_computed_indent w2env 8 hh
  have h3 := h.2.2 (by decide) (by decide)
  simpa [w2env] using h3

end Midgy

namespace Midgy

theorem isCellBreak_hr_not (cfg : Config) (t : Token)
    (h1 : isCellBreak cfg t = false) (h2 : t.ttype = TokType.hr) :
    ¬ (pyLen t.markup - countSpaces t.markup > cfg.cell_hr_length) := by
  intro hgt
  have : isCellBreak cfg t = true := by
    simp [isCellBreak, h2, hgt]
  rw [this] at h1
  exact absurd h1 (by simp)

theorem isCellBreak_parts (cfg : Config) (t : Token)
    (h : isCellBreak cfg t = true) :
    t.ttype = TokType.hr ∧
      pyLen t.markup - countSpaces t.markup > cfg.cell_hr_length := by
  unfold isCellBreak at h
  have := (Bool.and_eq_true _ _).mp h
  exact ⟨of_decide_eq_true this.1, of_decide_eq_true this.2⟩

theorem walkCellsAux_no_break (cfg : Config) :
    ∀ (ts block : List Token), (∀ t ∈ ts, isCellBreak cfg t = false) →
    walkCellsAux cfg block ts =
      (if block ++ ts.filter (fun t => decide (t.ttype ≠ TokType.hr)) = [] then []
       else [(block ++ ts.filter (fun t => decide (t.ttype ≠ TokType.hr)), none)]) := by
  intro ts
  induction ts with
  | nil => intro block _; simp [walkCellsAux]
  | cons t ts ih =>
    intro block hno
    have ht := hno t (by simp)
    by_cases hhr : t.ttype = TokType.hr
    · have hlen := isCellBreak_hr_not cfg t ht hhr
      rw [walkCellsAux, if_pos hhr, if_neg hlen]
      rw [ih block (fun x hx => hno x (by simp [hx]))]
      simp [List.filter_cons, hhr]
    · rw [walkCellsAux, if_neg hhr]
      rw [ih (block ++ [t]) (fun x hx => hno x (by simp [hx]))]
      simp [List.filter_cons, hhr]

theorem walkCellsAux_break (cfg : Config) :
    ∀ (a : List Token) (block : List Token) (h : Token) (b : List Token),
    isCellBreak cfg h = true → (∀ t ∈ a, isCellBreak cfg t = false) →
    walkCellsAux cfg block (a ++ h :: b) =
      (block ++ a.filter (fun t => decide (t.ttype ≠ TokType.hr)), some h) ::
        walkCellsAux cfg [h] b := by
  intro a
  induction a with
  | nil =>
    intro block h b hbrk _
    obtain ⟨hhr, hlen⟩ := isCellBreak_parts cfg h hbrk
    simp only [List.nil_append]
    rw [walkCellsAux, if_pos hhr, if_pos hlen]
    simp
  | cons t ts ih =>
    intro block h b hbrk hno
    have ht := hno t (by simp)
    by_cases hhr : t.ttype = TokType.hr
    · have hlen := isCellBreak_hr_not cfg t ht hhr
      rw [List.cons_append, walkCellsAux, if_pos hhr, if_neg hlen]
      rw [ih block h b hbrk (fun x hx => hno x (by simp [hx]))]
      simp [List.filter_cons, hhr]
    · rw [List.cons_append, walkCellsAux, if_neg hhr]
      rw [ih (block ++ [t]) h b hbrk (fun x hx => hno x (by simp [hx]))]
      simp [List.filter_cons, hhr]

/-- C5 (amended): `walk_cells` splits exactly at `hr` tokens whose
marker length, interior spaces not counted, strictly exceeds
`cell_hr_length` (9 by default); a break of effective length 9 or less
does not split (it is dropped from the running cell, as every
non-qualifying `hr` is); and the final cell consists of the **last
qualifying break token followed by** the remaining non-`hr` tokens
(`include_hr` defaults to true, so the separator opens the next
cell). -/
theorem claim5_cell_splitting :
    (∀ (cfg : Config) (ts : List Token),
      (∀ t ∈ ts, isCellBreak cfg t = false) →
      walk_cells cfg ts =
        (if ts.filter (fun t => decide (t.ttype ≠ TokType.hr)) = [] then []
         else [(ts.filter (fun t => decide (t.ttype ≠ TokType.hr)), none)])) ∧
    (∀ (cfg : Config) (a : List Token) (h : Token) (b : List Token),
      isCellBreak cfg h = true →
      (∀ t ∈ a, isCellBreak cfg t = false) →
      (∀ t ∈ b, isCellBreak cfg t = false) →
      walk_cells cfg (a ++ h :: b) =
        [(a.filter (fun t => decide (t.ttype ≠ TokType.hr)), some h),
         (h :: b.filter (fun t => decide (t.ttype ≠ TokType.hr)), none)]) ∧
    (∀ t : Token, isCellBreak { } t =
      (decide (t.ttype = TokType.hr) &&
        decide (pyLen t.markup - countSpaces t.markup > 9))) := by
  refine ⟨?_, ?_, fun t => rfl⟩
  · intro cfg ts hno
    unfold walk_cells
    rw [walkCellsAux_no_break cfg ts [] hno]
    simp
  · intro cfg a h b hbrk hna hnb
    unfold walk_cells
    rw [walkCellsAux_break cfg a [] h b hbrk hna]
    rw [walkCellsAux_no_break cfg b [h] hnb]
    simp

/-- C5 witness: a ten-dash break between two generic tokens splits the
stream into two cells; the break token opens the second cell. -/
theorem claim5_cell_splitting_witness :
    isCellBreak { } w5h = true ∧
    walk_cells { } [w5a, w5h, w5b] = [([w5a], some w5h), ([w5h, w5b], none)] := by
  refine ⟨by decide, ?_⟩
  have h := claim5_cell_splitting.2.1 { } [w5a] w5h [w5b]
    (by decide) (by decide) (by decide)
  simpa using h

/-- C5 counterexample to the claim as stated: after the last qualifying
break the remaining tokens are `[w5b]`, but the final cell produced by
`walk_cells` is `[w5h, w5b]` — it also contains the break token
itself. -/
theorem claim5_final_cell_counterexample :
    walk_cells { } [w5a, w5h, w5b] = [([w5a], some w5h), ([w5h, w5b], none)] ∧
    ([w5h, w5b] : List Token) ≠ [w5b] := by decide

end Midgy

namespace Midgy


theorem srcSlice_cons (st : Doc) (a b : Nat)
    (h : a < (chars st.src).length) (hab : a < b) :
    srcSlice st a b = srcAt st a :: srcSlice st (a + 1) b := by
  unfold srcSlice srcAt
  rw [List.drop_eq_getElem_cons h]
  rw [List.getD_eq_getElem _ _ h]
  have hba : b - a = (b - (a + 1)) + 1 := by omega
  rw [hba, List.take_succ_cons]

theorem srcSlice_len_le (st : Doc) (a b : Nat) :
    (srcSlice st a b).length ≤ b - a := by
  unfold srcSlice
  exact le_trans (List.length_take_le _ _) (le_refl _)

theorem slice3_iff (st : Doc) (a b : Nat) (c : Char) (hc : c ≠ '\x00') :
    (srcAt st a = c ∧ srcSlice st (a + 1) b = [c, c]) ↔
      srcSlice st a b = [c, c, c] := by
  constructor
  · rintro ⟨h1, h2⟩
    have hlt : a < (chars st.src).length := by
      by_contra hge
      have hz : srcAt st a = '\x00' := by
        unfold srcAt
        exact List.getD_eq_default _ _ (by omega)
      exact hc (h1.symm.trans hz)
    have hlen2 : ((srcSlice st (a + 1) b)).length = 2 := by rw [h2]; rfl
    have hb : a < b := by
      have := srcSlice_len_le st (a + 1) b
      omega
    rw [srcSlice_cons st a b hlt hb, h1, h2]
  · intro h
    have hlen3 : ((srcSlice st a b)).length = 3 := by rw [h]; rfl
    have hlt : a < (chars st.src).length := by
      by_contra hge
      have hnil : srcSlice st a b = [] := by
        unfold srcSlice
        rw [List.drop_eq_nil_of_le (by omega)]
        simp
      rw [hnil] at hlen3
      simp at hlen3
    have hb : a < b := by
      have := srcSlice_len_le st a b
      omega
    rw [srcSlice_cons st a b hlt hb] at h
    exact ⟨(List.cons.inj h).1, (List.cons.inj h).2⟩

theorem fmFirstCond_iff (toks : List Token) :
    (¬ toks.length > 1 ∧
      ¬ ((toks ≠ [] : Bool) && decide ((toks.getLast?.map (·.ttype)) ≠ some TokType.shebang)) = true) ↔
      fmFirstCond toks := by
  unfold fmFirstCond
  cases toks with
  | nil => simp
  | cons t ts =>
    simp only [Bool.and_eq_true, decide_eq_true_eq, ne_eq, List.length_cons]
    constructor
    · rintro ⟨h1, h2⟩
      right
      have hlen : ts.length = 0 := by omega
      refine ⟨by simp [hlen], ?_⟩
      by_contra hlast
      exact h2 ⟨by simp, hlast⟩
    · rintro (h | ⟨h1, h2⟩)
      · exact absurd h (by simp)
      · constructor
        · omega
        · rintro ⟨_, hlast⟩
          exact hlast h2

/-- C6 (amended): the front matter rule triggers exactly on an
unindented line of **exactly three** identical delimiter characters
drawn from `-`/`+` (with nothing else on the line), as the first block
or the first block after a shebang — a run of four or more delimiters
does not trigger it. -/
theorem claim6_front_matter_trigger (st : Doc) (toks : List Token)
    (i : Nat) (c : Char) :
    Lex.fmOpenChar st toks i = some c ↔
      (fmFirstCond toks ∧ (recOf st i).sCount = 0 ∧ (c = '-' ∨ c = '+') ∧
        chars (lineTail st i) = [c, c, c]) := by
  have htail : chars (lineTail st i) =
      srcSlice st ((recOf st i).bMark + (recOf st i).tShift) (recOf st i).eMark := rfl
  unfold Lex.fmOpenChar
  by_cases h1 : (recOf st i).sCount ≠ 0
  · rw [if_pos h1]
    constructor
    · intro h; exact absurd h (by simp)
    · rintro ⟨_, h0, _⟩; exact absurd h0 h1
  · rw [if_neg h1]
    by_cases h2 : toks.length > 1
    · rw [if_pos h2]
      constructor
      · intro h; exact absurd h (by simp)
      · rintro ⟨hfc, _⟩
        exact absurd h2 ((fmFirstCond_iff toks).mpr hfc).1
    · rw [if_neg h2]
      by_cases h3 : ((toks ≠ [] : Bool) &&
          decide ((toks.getLast?.map (·.ttype)) ≠ some TokType.shebang)) = true
      · rw [if_pos h3]
        constructor
        · intro h; exact absurd h (by simp)
        · rintro ⟨hfc, _⟩
          exact absurd h3 ((fmFirstCond_iff toks).mpr hfc).2
      · rw [if_neg h3]
        have hfc : fmFirstCond toks := (fmFirstCond_iff toks).mp ⟨h2, h3⟩
        by_cases h4 : (srcAt st ((recOf st i).bMark + (recOf st i).tShift) = '-' ||
            srcAt st ((recOf st i).bMark + (recOf st i).tShift) = '+') = true
        · rw [if_pos h4]
          have hc0 : srcAt st ((recOf st i).bMark + (recOf st i).tShift) ≠ '\x00' := by
            rcases (Bool.or_eq_true _ _).mp h4 with h | h
            · rw [of_decide_eq_true h]; decide
            · rw [of_decide_eq_true h]; decide
          by_cases h5 : srcSlice st ((recOf st i).bMark + (recOf st i).tShift + 1)
              (recOf st i).eMark =
              [srcAt st ((recOf st i).bMark + (recOf st i).tShift),
               srcAt st ((recOf st i).bMark + (recOf st i).tShift)]
          · rw [if_pos h5]
            constructor
            · intro h
              have hcc : srcAt st ((recOf st i).bMark + (recOf st i).tShift) = c :=
                Option.some.inj h
              refine ⟨hfc, by omega, ?_, ?_⟩
              · rcases (Bool.or_eq_true _ _).mp h4 with h | h
                · exact Or.inl (hcc.symm.trans (of_decide_eq_true h))
                · exact Or.inr (hcc.symm.trans (of_decide_eq_true h))
              · rw [htail]
                rw [hcc] at h5
                exact (slice3_iff st _ _ c (hcc ▸ hc0)).mp ⟨hcc, h5⟩
            · rintro ⟨_, _, hcpm, htr⟩
              rw [htail] at htr
              have hcne : c ≠ '\x00' := by
                rcases hcpm with h | h <;> (subst h; decide)
              have hparts := (slice3_iff st _ _ c hcne).mpr htr
              exact congrArg some hparts.1
          · rw [if_neg h5]
            constructor
            · intro h; exact absurd h (by simp)
            · rintro ⟨_, _, hcpm, htr⟩
              rw [htail] at htr
              have hcne : c ≠ '\x00' := by
                rcases hcpm with h | h <;> (subst h; decide)
              have hparts := (slice3_iff st _ _ c hcne).mpr htr
              refine absurd ?_ h5
              rw [hparts.1, hparts.2]
        · rw [if_neg h4]
          constructor
          · intro h; exact absurd h (by simp)
          · rintro ⟨_, _, hcpm, htr⟩
            rw [htail] at htr
            have hcne : c ≠ '\x00' := by
              rcases hcpm with h | h <;> (subst h; decide)
            have hparts := (slice3_iff st _ _ c hcne).mpr htr
            rw [hparts.1] at h4
            rcases hcpm with h | h <;> simp [h] at h4

end Midgy

namespace Midgy

/-- C6 counterexample to the claim as stated: a four-dash line is a
front matter delimiter by the claim's "three or more" rule, yet the
lexer does not trigger on it (and emits no front matter token) even in
first-block position with no indentation. -/
theorem claim6_four_dash_counterexample :
    claimFmLine "----" = true ∧
    lineTail w6doc 0 = "----" ∧
    (recOf w6doc 0).sCount = 0 ∧
    fmFirstCond ([] : List Token) ∧
    Lex.fmOpenChar w6doc [] 0 = none ∧
    Lex.fmLexer w6doc [] 0 3 = none := by decide

theorem fmScan_none (st : Doc) (c : Char) (startLine endLine : Nat)
    (hnoclose : ∀ j, startLine < j → j < endLine → Lex.fmCloses st c j = false) :
    ∀ (fuel n : Nat), startLine ≤ n →
      Lex.fmScan st c endLine fuel n = none := by
  intro fuel
  induction fuel with
  | zero => intro n _; rfl
  | succ fuel ih =>
    intro n hn
    unfold Lex.fmScan
    by_cases hend : n + 1 ≥ endLine
    · rw [if_pos hend]
    · rw [if_neg hend]
      have hcl := hnoclose (n + 1) (by omega) (by omega)
      rw [if_neg (by simp [hcl])]
      exact ih (n + 1) (by omega)

/-- C7: when a front matter opening line has no matching closing
delimiter before the end of the document, `_front_matter_lexer`
declines the match — it returns without emitting a token or consuming
any lines (no error is raised; the lines then fall through to the
ordinary paragraph rules of the host parser). -/
theorem claim7_unterminated_front_matter (st : Doc) (toks : List Token)
    (startLine endLine : Nat) (c : Char)
    (hopen : Lex.fmOpenChar st toks startLine = some c)
    (hnoclose : ∀ j, startLine < j → j < endLine → Lex.fmCloses st c j = false) :
    Lex.fmLexer st toks startLine endLine = none := by
  unfold Lex.fmLexer
  rw [hopen]
  dsimp only
  rw [fmScan_none st c startLine endLine hnoclose (endLine + 1) startLine (le_refl _)]

/-- C7 witness: `---` followed by a single prose line and no closing
delimiter; the rule declines. -/
theorem claim7_unterminated_front_matter_witness :
    Lex.fmOpenChar w7doc [] 0 = some '-' ∧
    Lex.fmCloses w7doc '-' 1 = false ∧
    Lex.fmLexer w7doc [] 0 2 = none := by
  refine ⟨by decide, by decide, ?_⟩
  exact claim7_unterminated_front_matter w7doc [] 0 2 '-' (by decide)
    (fun j h1 h2 => by
      have hj : j = 1 := by omega
      subst hj
      decide)

/-- C8 (amended): the shebang rule matches only at absolute character
position 0, consumes exactly one line and emits exactly one shebang
token, and never partially consumes input; but its pattern is `#!`
followed by a token, **at least one whitespace character**, and an
optional argument — a line `#!cmd` with nothing after the interpreter
token does not match. -/
theorem claim8_shebang_rule :
    (∀ (st : Doc) (i : Nat) (t : Token), Lex.shebangLexer st i = some t →
      (recOf st i).bMark + (recOf st i).tShift = 0 ∧
      t.ttype = TokType.shebang ∧ t.tmap = (i, i + 1)) ∧
    (∀ (st : Doc) (i : Nat), (Lex.shebangLexer st i).isSome =
      (decide ((recOf st i).bMark + (recOf st i).tShift = 0) &&
        Lex.shebangRe (lineTail st i))) ∧
    Lex.shebangRe "#!python" = false ∧
    Lex.shebangRe "#!python " = true ∧
    Lex.shebangRe "#!/usr/bin/env midgy" = true := by
  refine ⟨?_, ?_, by decide, by decide, by decide⟩
  · intro st i t h
    unfold Lex.shebangLexer at h
    by_cases h1 : (recOf st i).bMark + (recOf st i).tShift ≠ 0
    · rw [if_pos h1] at h
      exact absurd h (by simp)
    · rw [if_neg h1] at h
      by_cases h2 : Lex.shebangRe (lineTail st i) = true
      · rw [if_pos h2] at h
        have ht := Option.some.inj h
        refine ⟨by omega, ?_, ?_⟩
        · rw [← ht]
        · rw [← ht]
      · rw [if_neg h2] at h
        exact absurd h (by simp)
  · intro st i
    unfold Lex.shebangLexer
    by_cases h1 : (recOf st i).bMark + (recOf st i).tShift ≠ 0
    · rw [if_pos h1]
      have : decide ((recOf st i).bMark + (recOf st i).tShift = 0) = false := by
        simpa using h1
      rw [this]
      rfl
    · rw [if_neg h1]
      have h0 : (recOf st i).bMark + (recOf st i).tShift = 0 := by omega
      rw [decide_eq_true h0]
      by_cases h2 : Lex.shebangRe (lineTail st i) = true
      · rw [if_pos h2, h2]
        rfl
      · rw [if_neg h2]
        have : Lex.shebangRe (lineTail st i) = false := by
          cases hb : Lex.shebangRe (lineTail st i)
          · rfl
          · exact absurd hb h2
        rw [this]
        rfl

/-- C8 witness: the rule matches on a shebang line with an argument at
position 0, emitting one one-line token. -/
theorem claim8_shebang_rule_witness :
    Lex.shebangLexer w8good 0 = some w8tok ∧
    (recOf w8good 0).bMark + (recOf w8good 0).tShift = 0 ∧
    w8tok.ttype = TokType.shebang ∧ w8tok.tmap = (0, 1) := by
  have h : Lex.shebangLexer w8good 0 = some w8tok := by decide
  have hc := claim8_shebang_rule.1 w8good 0 w8tok h
  exact ⟨h, hc⟩

/-- C8 counterexample to the claim as stated: `#!python` is `#!`
followed by a token with the argument absent, so the claim says the
rule matches; the rule does not match (the regex requires trailing
whitespace), even at absolute position 0. -/
theorem claim8_no_space_counterexample :
    claimShebangLine "#!python" = true ∧
    lineTail w8doc 0 = "#!python" ∧
    (recOf w8doc 0).bMark + (recOf w8doc 0).tShift = 0 ∧
    Lex.shebangLexer w8doc 0 = none := by decide

end Midgy

namespace Midgy

/-- C1: the line-count preservation property fails.  On the document
`"    a = 1\n\n    b = 2\n"` (an indented code block containing a blank
line) the renderer produces `"a = 1\nb = 2\n"`: `dedent_block` slices
`min_indent` characters off every line with no guard for short lines,
so the blank line `"\n"` becomes `""` and its newline is dropped — the
output has 2 lines where the input has 3. -/
theorem claim1_blank_line_dropped :
    render { } (fun _ => none) "    a = 1\n\n    b = 2\n" = .ok "a = 1\nb = 2\n" ∧
    countNL "    a = 1\n\n    b = 2\n" = 3 ∧
    countNL "a = 1\nb = 2\n" = 2 ∧
    dedent_block ["    a = 1\n", "\n", "    b = 2\n"] 4 = ["a = 1\n", "", "b = 2\n"] := by
  refine ⟨by rfl, by rfl, by rfl, by rfl⟩

/-- C3: rendering does not always terminate normally.  An explicit
```` ```pycon ```` code fence is classified as doctest code when
`include_doctest` is enabled, but fence-rule tokens carry no
`input`/`output` spans in their meta, so `doctest_code_input` hits a
missing-key lookup (python: `KeyError: 'input'`) and `render` raises
instead of returning a string.  The same document renders fine under
the default configuration. -/
theorem claim3_pycon_fence_raises :
    render { include_doctest := true } (fun _ => none)
      "```pycon\n>>> 1 + 1\n```\n" = .error (.keyError "input") ∧
    render { } (fun _ => none) "```pycon\n>>> 1 + 1\n```\n" =
      .ok "\"\"\"```pycon\n>>> 1 + 1\n```\"\"\";\n" := by
  refine ⟨by rfl, by rfl⟩

end Midgy

namespace Midgy

theorem get_front_matter_eq (load : String → Option FM) :
    ∀ toks : List Token, get_front_matter load toks =
      (match firstNonShebang toks with
       | some t => if t.ttype = TokType.front_matter then load t.content else none
       | none => none) := by
  intro toks
  induction toks with
  | nil => rfl
  | cons t ts ih =>
    unfold get_front_matter firstNonShebang
    by_cases h1 : t.ttype = TokType.shebang
    · rw [if_pos h1, if_pos h1, ih]
    · rw [if_neg h1, if_neg h1]

/-- C10: `render_tokens` renders with a freshly constructed renderer
configured from the front matter entry under `config_key` exactly when
the first non-shebang token is a front matter token whose loaded
payload carries such an entry; in every other case the original
renderer is used unchanged.  The loader is the `front_matter.load`
collaborator, modelled as a parameter. -/
theorem claim10_front_matter_reconfigures
    (cfg : Config) (load : String → Option FM) (toks : List Token)
    (env0 : Option Env) (src : String) (stop : Option Token) :
    (∀ (t : Token) (fm : FM) (c : Config),
      firstNonShebang toks = some t → t.ttype = TokType.front_matter →
      load t.content = some fm → fmGet fm cfg.config_key = some c →
      renderer_from_tokens cfg load toks = c ∧
      render_tokens cfg load toks env0 src stop =
        renderTokensWith c toks env0 src stop) ∧
    (∀ t : Token, firstNonShebang toks = some t →
      t.ttype ≠ TokType.front_matter →
      renderer_from_tokens cfg load toks = cfg ∧
      render_tokens cfg load toks env0 src stop =
        renderTokensWith cfg toks env0 src stop) ∧
    (∀ t : Token, firstNonShebang toks = some t →
      t.ttype = TokType.front_matter →
      (load t.content).bind (fun fm => fmGet fm cfg.config_key) = none →
      renderer_from_tokens cfg load toks = cfg ∧
      render_tokens cfg load toks env0 src stop =
        renderTokensWith cfg toks env0 src stop) ∧
    (firstNonShebang toks = none →
      renderer_from_tokens cfg load toks = cfg ∧
      render_tokens cfg load toks env0 src stop =
        renderTokensWith cfg toks env0 src stop) := by
  have hgf := get_front_matter_eq load toks
  refine ⟨?_, ?_, ?_, ?_⟩
  · intro t fm c h1 h2 h3 h4
    have hr : renderer_from_tokens cfg load toks = c := by
      unfold renderer_from_tokens
      rw [hgf, h1]
      dsimp only
      rw [if_pos h2, h3]
      dsimp only
      rw [h4]
    exact ⟨hr, by unfold render_tokens; rw [hr]⟩
  · intro t h1 h2
    have hr : renderer_from_tokens cfg load toks = cfg := by
      unfold renderer_from_tokens
      rw [hgf, h1]
      dsimp only
      rw [if_neg h2]
    exact ⟨hr, by unfold render_tokens; rw [hr]⟩
  · intro t h1 h2 h3
    have hr : renderer_from_tokens cfg load toks = cfg := by
      unfold renderer_from_tokens
      rw [hgf, h1]
      dsimp only
      rw [if_pos h2]
      cases hl : load t.content with
      | none => rfl
      | some fm =>
        rw [hl] at h3
        simp only [Option.bind] at h3
        dsimp only
        rw [h3]
    exact ⟨hr, by unfold render_tokens; rw [hr]⟩
  · intro h1
    have hr : renderer_from_tokens cfg load toks = cfg := by
      unfold renderer_from_tokens
      rw [hgf, h1]
    exact ⟨hr, by unfold render_tokens; rw [hr]⟩

/-- C10 witness: a shebang followed by a front matter token with a
`py` entry makes `render_tokens` use the renderer built from that
entry. -/
theorem claim10_front_matter_reconfigures_witness :
    firstNonShebang [w8tok, w10fm] = some w10fm ∧
    w10fm.ttype = TokType.front_matter ∧
    w10load w10fm.content = some [("py", w10cfg)] ∧
    fmGet [("py", w10cfg)] (Config.config_key { }) = some w10cfg ∧
    renderer_from_tokens { } w10load [w8tok, w10fm] = w10cfg ∧
    render_tokens { } w10load [w8tok, w10fm] none "x\n" none =
      renderTokensWith w10cfg [w8tok, w10fm] none "x\n" none := by
  have h := (claim10_front_matter_reconfigures { } w10load [w8tok, w10fm]
    none "x\n" none).1 w10fm [("py", w10cfg)] w10cfg (by rfl) (by rfl)
    (by rfl) (by rfl)
  exact ⟨by rfl, by rfl, by rfl, by rfl, h.1, h.2⟩

end Midgy

namespace Midgy

theorem pyLen_append (a b : String) : pyLen (a ++ b) = pyLen a + pyLen b := by
  unfold pyLen
  rw [chars_append, List.length_append]

theorem importExprOf_ne_empty (m : String) : Lang.importExprOf m ≠ "" := by
  intro h
  have h0 : pyLen (Lang.importExprOf m) = 0 := by rw [h]; rfl
  unfold Lang.importExprOf at h0
  rw [pyLen_append, pyLen_append, pyLen_append] at h0
  have h1 : 0 < pyLen "__import__(\"importlib\").import_module(\"" := by decide
  omega

theorem genBlock_spec (env : Lang.LEnv) (b : Nat) (h : env.last_line ≤ b) :
    Lang.genBlock env b =
      ((List.range (b - env.last_line)).map
        (fun k => env.src.getD (env.last_line + k) ""),
       { env with last_line := b }) := by
  unfold Lang.genBlock
  rw [Nat.max_eq_right h]

/-- C9: fence info strings outside the code-language allow-list are
rendered by `fence_noncode`: the resolver maps the info language
through `fence_methods` (falling back to the language itself), emits a
dynamic-import call expression exactly when the resolved name carries
the `:` module qualifier, and otherwise resolves to no loader at all;
`fence_noncode` always wraps the (dedented, escaped) fence body in a
triple-quoted string between the commented fence delimiter lines, with
the loader call (and its closing parenthesis) present exactly in the
module-qualified case — an unknown info string degrades to the plain
string wrapping with no loader and no error. -/
theorem claim9_fence_noncode_resolution :
    (∀ tok : Lang.LTok, Lang.get_fence_method tok =
      (if containsChar (Lang.resolveFence (Lang.get_lang tok)) ':' then
        Lang.importExprOf (Lang.resolveFence (Lang.get_lang tok)) else "")) ∧
    (∀ m : String, Lang.importExprOf m ≠ "") ∧
    (∀ (tok : Lang.LTok) (env : Lang.LEnv) (s e : Nat),
      tok.tmap = (s, e) → env.last_line = s → s + 2 ≤ e →
      tok.tmeta.next_code = some (some ()) →
      Lang.fence_noncode tok env = .ok
        ([SPn (Lang.get_indent env)] ++
          (if containsChar (Lang.resolveFence (Lang.get_lang tok)) ':' then
            ["(" ++ Lang.importExprOf (Lang.resolveFence (Lang.get_lang tok))]
          else []) ++
          ["( # ", env.src.getD s ""] ++ [QUOTE] ++
          ((Lang.genDedent ((List.range (e - 1 - (s + 1))).map
              (fun k => env.src.getD (s + 1 + k) ""))
            tok.tmeta.min_indent).map Lang.escapeL) ++
          [QUOTE, ")"] ++
          (if containsChar (Lang.resolveFence (Lang.get_lang tok)) ':' then [")"]
           else []) ++
          [" # ", env.src.getD (e - 1) ""],
          Lang.fenceEnvAfter tok env)) := by
  refine ⟨fun tok => rfl, importExprOf_ne_empty, ?_⟩
  intro tok env s e hmap hline hse hnext
  have hb1 : Lang.genBlock env (tok.tmap.fst + 1) =
      ([env.src.getD s ""], { env with last_line := s + 1 }) := by
    rw [hmap]
    rw [genBlock_spec env (s + 1) (by omega)]
    rw [hline]
    have h11 : s + 1 - s = 1 := by omega
    rw [h11]
    simp [List.range_succ]
  have hb2 : Lang.genBlock { env with last_line := s + 1 } (tok.tmap.snd - 1) =
      ((List.range (e - 1 - (s + 1))).map (fun k => env.src.getD (s + 1 + k) ""),
       { env with last_line := e - 1 }) := by
    rw [hmap]
    rw [genBlock_spec _ (e - 1) (by simp; omega)]
  have hb3 : Lang.genBlock { env with last_line := e - 1 } (tok.tmap.snd) =
      ([env.src.getD (e - 1) ""], { env with last_line := e }) := by
    rw [hmap]
    rw [genBlock_spec _ e (by simp)]
    have h11 : e - (e - 1) = 1 := by omega
    rw [h11]
    simp [List.range_succ]
  have hrest : Lang.fenceRest tok env = [env.src.getD (e - 1) ""] := by
    unfold Lang.fenceRest
    rw [hb1]
    dsimp only
    rw [hb2]
    dsimp only
    rw [hb3]
  have hwrap : ∀ tail, Lang.fenceWrap tok env tail =
      [SPn (Lang.get_indent env)] ++
        (if containsChar (Lang.resolveFence (Lang.get_lang tok)) ':' then
          ["(" ++ Lang.importExprOf (Lang.resolveFence (Lang.get_lang tok))]
        else []) ++
        ["( # ", env.src.getD s ""] ++ [QUOTE] ++
        ((Lang.genDedent ((List.range (e - 1 - (s + 1))).map
            (fun k => env.src.getD (s + 1 + k) ""))
          tok.tmeta.min_indent).map Lang.escapeL) ++
        [QUOTE, ")"] ++
        (if containsChar (Lang.resolveFence (Lang.get_lang tok)) ':' then [")"]
         else []) ++ [" # "] ++ tail := by
    intro tail
    unfold Lang.fenceWrap
    rw [hb1]
    dsimp only
    rw [hb2]
    dsimp only
    by_cases hct : containsChar (Lang.resolveFence (Lang.get_lang tok)) ':' = true
    · have hm : Lang.get_fence_method tok =
          Lang.importExprOf (Lang.resolveFence (Lang.get_lang tok)) := by
        unfold Lang.get_fence_method
        rw [if_pos hct]
      rw [hm, if_pos hct, if_pos hct,
        if_pos (importExprOf_ne_empty (Lang.resolveFence (Lang.get_lang tok))),
        if_pos (importExprOf_ne_empty (Lang.resolveFence (Lang.get_lang tok)))]
      simp
    · have hct' : containsChar (Lang.resolveFence (Lang.get_lang tok)) ':' = false := by
        cases hb : containsChar (Lang.resolveFence (Lang.get_lang tok)) ':'
        · rfl
        · exact absurd hb hct
      have hm : Lang.get_fence_method tok = "" := by
        unfold Lang.get_fence_method
        rw [if_neg hct]
      rw [hm, if_neg hct, if_neg hct]
      rw [if_neg (by simp), if_neg (by simp)]
      simp
  unfold Lang.fence_noncode
  rw [hnext]
  dsimp only
  rw [hrest, hwrap]
  simp

end Midgy

namespace Midgy

/-- C9 witness: an unknown `mystery` fence degrades to a plain
triple-quoted string with no loader call, and a `yaml` fence gets the
resolved dynamic-import loader call around the same quoted body. -/
theorem claim9_fence_noncode_resolution_witness :
    w9tok.tmap = (0, 3) ∧ w9env.last_line = 0 ∧ 0 + 2 ≤ 3 ∧
    w9tok.tmeta.next_code = some (some ()) ∧
    Lang.get_fence_method w9tok = "" ∧
    (Lang.fence_noncode w9tok w9env).map (fun p => flat p.fst) =
      .ok "( # ```mystery\n\"\"\"body\n\"\"\") # ```\n" ∧
    (Lang.fence_noncode w9ytok w9yenv).map (fun p => flat p.fst) =
      .ok ("(__import__(\"importlib\").import_module(\"yaml\").safe_load" ++
        "( # ```yaml\n\"\"\"a: 1\n\"\"\")) # ```\n") := by
  refine ⟨rfl, rfl, by omega, rfl, rfl, ?_, ?_⟩
  · have h := claim9_fence_noncode_resolution.2.2 w9tok w9env 0 3 rfl rfl
      (by omega) rfl
    rw [h]
    rfl
  · have h := claim9_fence_noncode_resolution.2.2 w9ytok w9yenv 0 3 rfl rfl
      (by omega) rfl
    rw [h]
    rfl

end Midgy

namespace Midgy

theorem str_append_empty (s : String) : s ++ "" = s := by
  cases s with
  | mk l => exact congrArg String.mk (List.append_nil l)

theorem str_empty_append (s : String) : "" ++ s = s := by
  cases s with
  | mk l => rfl

theorem bindOk {α β : Type} (a : α) (f : α → Except Err β) :
    ((Except.ok a : Except Err α) >>= f) = f a := rfl

theorem pureBind {α β : Type} (a : α) (f : α → Except Err β) :
    ((pure a : Except Err α) >>= f) = f a := rfl

theorem readCount_spec : ∀ (n : Nat) (env : Env),
    readCount env n =
      ((List.range n).map (fun k => env.src.getD (env.last_line + k) ""),
       { env with last_line := env.last_line + n }) := by
  intro n
  induction n with
  | zero => intro env; simp [readCount]
  | succ n ih =>
    intro env
    unfold readCount readline
    dsimp only
    rw [ih]
    refine congrArg₂ Prod.mk ?_ ?_
    · rw [List.range_succ_eq_map, List.map_cons, List.map_map]
      refine congrArg₂ List.cons (by rw [Nat.add_zero]) ?_
      refine List.map_congr_left ?_
      intro a _
      simp only [Function.comp]
      congr 1
      omega
    · simp only []
      congr 1
      omega

theorem ofChars_append (a b : List Char) :
    ofChars (a ++ b) = ofChars a ++ ofChars b := rfl

theorem get_block_spec (env : Env) (b : Nat) (h : env.last_line ≤ b) :
    get_block env (some b) =
      ((List.range (b - env.last_line)).map
        (fun k => env.src.getD (env.last_line + k) ""),
       { env with last_line := b }) := by
  unfold get_block
  dsimp only
  unfold getBlockTo
  rw [readCount_spec]
  have hb : env.last_line + (b - env.last_line) = b := by omega
  rw [hb]

theorem gci_set_last_line (env : Env) (x : Nat) :
    get_computed_indent { env with last_line := x } = get_computed_indent env := rfl

theorem contOf_false (l : String) (h : cleanLine l) : contOf l = false :=
  decide_eq_false h.2

theorem contentLen_clean (l : String) (h : cleanLine l) :
    contentLen l = pyLen (rstrip l) := by
  unfold contentLen
  rw [contOf_false l h]
  simp

theorem wrapAux_pre_flat (pre : String) :
    ∀ (ls : List String) (ws : String), (∀ l ∈ ls, cleanLine l) →
    flat (wrapAux pre "" "" ls "" ws true false) =
      ws ++ flat (ls.map (fun l => pre ++ l)) := by
  intro ls
  induction ls with
  | nil =>
    intro ws _
    simp [wrapAux, flat, str_append_empty]
  | cons line rest ih =>
    intro ws hcl
    have hc := hcl line (by simp)
    unfold wrapAux
    rw [if_neg hc.1]
    rw [if_pos rfl]
    rw [contOf_false line hc, contentLen_clean line hc]
    rw [flat_append, flat_append]
    rw [ih (pyDrop line (pyLen (rstrip line))) (fun x hx => hcl x (by simp [hx]))]
    simp only [flat, List.map_cons, str_append_empty, str_empty_append]
    simp only [String.append_assoc]
    rw [← String.append_assoc (pyTake line (pyLen (rstrip line)))]
    rw [pyTake_append_pyDrop line (pyLen (rstrip line))]

theorem wrap_pre_flat (pre : String) (ls : List String)
    (h : ∀ l ∈ ls, cleanLine l) :
    flat (wrap_lines ls "" pre "" "") = flat (ls.map (fun l => pre ++ l)) := by
  cases ls with
  | nil => rfl
  | cons line rest =>
    have hc := h line (by simp)
    unfold wrap_lines wrapAux
    rw [if_neg hc.1]
    rw [if_neg (by simp)]
    rw [contOf_false line hc, contentLen_clean line hc]
    rw [flat_append, flat_append]
    rw [wrapAux_pre_flat pre rest (pyDrop line (pyLen (rstrip line)))
      (fun x hx => h x (by simp [hx]))]
    simp only [splitNl, splitNlAux, List.flatMap_nil, flat, List.map_cons,
      str_append_empty, str_empty_append]
    simp only [String.append_assoc]
    rw [← String.append_assoc (pyTake line (pyLen (rstrip line)))]
    rw [pyTake_append_pyDrop line (pyLen (rstrip line))]

theorem wrap_lines_nil (lead pre trail contn : String) :
    wrap_lines [] lead pre trail contn = [""] := rfl

theorem base_non_code_at_stop (env : Env) (t : Token)
    (hline : env.last_line = t.tmap.fst) :
    base_non_code env (some t) =
      ([], { env with last_indent := t.tmeta.last_indent.getD 0 }) := by
  unfold base_non_code
  dsimp only [Option.map]
  rw [get_block_spec env t.tmap.fst (by omega)]
  rw [← hline]
  simp

theorem non_code_at_stop (cfg : Config) (env : Env) (t : Token) (K : Nat)
    (hline : env.last_line = t.tmap.fst)
    (hok : get_computed_indent env = .ok K) :
    ∃ fr, non_code cfg env (some t) =
      .ok (fr, { env with last_indent := t.tmeta.last_indent.getD 0 }) ∧
      flat fr = "" := by
  unfold non_code
  by_cases hq : env.quoted_block = true
  · rw [if_pos hq]
    rw [base_non_code_at_stop env t hline]
    exact ⟨_, rfl, rfl⟩
  · rw [if_neg hq]
    by_cases hm : cfg.include_markdown = true
    · rw [if_pos hm]
      unfold non_code_block_string
      rw [hok, bindOk]
      rw [base_non_code_at_stop env t hline]
      exact ⟨_, rfl, rfl⟩
    · rw [if_neg hm]
      unfold non_code_comment
      rw [hok, bindOk]
      rw [base_non_code_at_stop env t hline]
      exact ⟨_, rfl, rfl⟩

theorem lstrip_spaces_prompt (wl pl rl : String)
    (hw : (chars wl).all (fun c => c = ' ') = true) (hp : pl ∈ prompts) :
    lstrip (wl ++ pl ++ rl) = pl ++ rl := by
  unfold lstrip
  rw [chars_append, chars_append, List.append_assoc]
  rw [List.dropWhile_append]
  have h1 : (chars wl).dropWhile pyWsChar = [] := by
    rw [List.dropWhile_eq_nil_iff]
    intro x hx
    have hsp := List.all_eq_true.mp hw x hx
    have hx2 : x = ' ' := by simpa using hsp
    simp [pyWsChar, hx2]
  rw [h1]
  simp only [List.isEmpty_nil, if_true]
  have hp2 : pl = ">>> " ∨ pl = "... " := by simpa [prompts] using hp
  rcases hp2 with h | h
  · subst h
    rfl
  · subst h
    rfl

theorem strip_prompt_line (m : Nat) (wl pl rl : String)
    (hw : (chars wl).all (fun c => c = ' ') = true) (hp : pl ∈ prompts)
    (hm : m ≤ pyLen wl) :
    pyDrop (pyTake (wl ++ pl ++ rl)
        (pyLen (wl ++ pl ++ rl) - pyLen (lstrip (wl ++ pl ++ rl)))) m ++
      pyDrop (lstrip (wl ++ pl ++ rl)) 4 = pyDrop wl m ++ rl := by
  rw [lstrip_spaces_prompt wl pl rl hw hp]
  have hlen : pyLen (wl ++ pl ++ rl) - pyLen (pl ++ rl) = pyLen wl := by
    rw [pyLen_append, pyLen_append, pyLen_append]
    omega
  rw [hlen]
  have htake : pyTake (wl ++ pl ++ rl) (pyLen wl) = wl := by
    unfold pyTake pyLen
    rw [chars_append, chars_append, List.append_assoc]
    exact congrArg String.mk (List.take_left _ _)
  have hdrop : pyDrop (pl ++ rl) 4 = rl := by
    have h4 : pyLen pl = 4 := by
      have hp2 : pl = ">>> " ∨ pl = "... " := by simpa [prompts] using hp
      rcases hp2 with h | h <;> (subst h; rfl)
    unfold pyDrop
    rw [chars_append, ← show (chars pl).length = 4 from h4]
    exact congrArg String.mk (List.drop_left _ _)
  rw [htake, hdrop]

theorem doctest_code_input_spec (tok : Token) (env : Env) (b : Nat)
    (hin : tok.tmeta.inputSpan = some (tok.tmap.fst, b))
    (hline : env.last_line = tok.tmap.fst) (hb : tok.tmap.fst ≤ b) :
    doctest_code_input tok env = .ok
      ((List.range (b - tok.tmap.fst)).map (fun k =>
        pyDrop (pyTake (env.src.getD (tok.tmap.fst + k) "")
            (pyLen (env.src.getD (tok.tmap.fst + k) "") -
              pyLen (lstrip (env.src.getD (tok.tmap.fst + k) "")))) env.min_indent ++
          pyDrop (lstrip (env.src.getD (tok.tmap.fst + k) "")) 4),
       { env with last_line := b }) := by
  unfold doctest_code_input
  rw [hin]
  dsimp only
  rw [get_block_spec env b (by omega)]
  dsimp only
  rw [hline]
  rw [List.map_map]
  rfl

/-- C4: doctest promotion.  For a doctest block token (implicit `pycon`
fence, not magic) rendered with `include_doctest` enabled, whose input
span covers lines `tmap.fst..b` each of the form
`whitespace ++ prompt ++ rest` with a 4-character prompt
(`">>> "`/`"... "`) and whose output span covers lines `b..oe` that
dedent cleanly at the block's `min_indent`, `fence_pycon` succeeds and
its output is exactly the input lines with the document `min_indent`
and the 4-character prompt stripped (live code), followed by every
output line dedented and prefixed with `"# "` at the computed indent
(a comment). -/
theorem claim4_doctest_promotion
    (cfg : Config) (tok : Token) (env : Env) (b oe mi K0 K : Nat)
    (w p r c : Nat → String)
    (hdt : cfg.include_doctest = true)
    (hmagic : tok.tmeta.magic = some false)
    (hin : tok.tmeta.inputSpan = some (tok.tmap.fst, b))
    (hout : tok.tmeta.outputSpan = some (some (b, oe)))
    (hmi : tok.tmeta.min_indent = some mi)
    (hline : env.last_line = tok.tmap.fst)
    (hfb : tok.tmap.fst ≤ b) (hboe : b ≤ oe)
    (hK0 : get_computed_indent env = .ok K0)
    (hK : get_computed_indent
      { env with last_indent := tok.tmeta.last_indent.getD 0 } = .ok K)
    (hinl : ∀ k, k < b - tok.tmap.fst →
      env.src.getD (tok.tmap.fst + k) "" = w k ++ p k ++ r k ∧
      (chars (w k)).all (fun ch => ch = ' ') = true ∧ p k ∈ prompts ∧
      env.min_indent ≤ pyLen (w k))
    (houtl : ∀ k, k < oe - b →
      pyDrop (env.src.getD (b + k) "") mi = c k ++ "\n" ∧ cleanLine (c k ++ "\n")) :
    ∃ fr envF, fence_pycon cfg tok env = .ok (fr, envF) ∧
      flat fr =
        flat ((List.range (b - tok.tmap.fst)).map
          (fun k => pyDrop (w k) env.min_indent ++ r k)) ++
        flat ((List.range (oe - b)).map
          (fun k => SPn K ++ "# " ++ (c k ++ "\n"))) := by
  unfold fence_pycon
  rw [if_pos hdt]
  obtain ⟨fr1, hnc1, hfl1⟩ := non_code_at_stop cfg env tok K0 hline hK0
  rw [hnc1, bindOk]
  dsimp only
  unfold doctest_code
  obtain ⟨fr2, hnc2, hfl2⟩ := non_code_at_stop cfg
    { env with last_indent := tok.tmeta.last_indent.getD 0 } tok K hline hK
  rw [hnc2, bindOk]
  simp only []
  rw [hmagic]
  rw [show metaBool (some false) "magic" = Except.ok false from rfl, bindOk]
  rw [if_neg (by simp)]
  rw [doctest_code_input_spec tok
    { env with last_indent := tok.tmeta.last_indent.getD 0 } b hin hline hfb,
    bindOk]
  rw [hout]
  simp only [pure_bind]
  rw [get_block_spec
    { env with last_line := b, last_indent := tok.tmeta.last_indent.getD 0 }
    oe hboe]
  rw [hmi]
  rw [show metaNat (some mi) "min_indent" = Except.ok mi from rfl, bindOk]
  unfold comment
  rw [show get_computed_indent
      { env with last_indent := tok.tmeta.last_indent.getD 0, last_line := oe } =
    Except.ok K from hK]
  simp only [pure_bind, bindOk]
  refine ⟨_, _, rfl, ?_⟩
  rw [flat_append, flat_append, flat_append, hfl1, hfl2]
  rw [str_empty_append, str_empty_append]
  have hinps : List.map (fun k =>
      pyDrop (pyTake (env.src.getD (tok.tmap.fst + k) "")
        (pyLen (env.src.getD (tok.tmap.fst + k) "") -
          pyLen (lstrip (env.src.getD (tok.tmap.fst + k) "")))) env.min_indent ++
        pyDrop (lstrip (env.src.getD (tok.tmap.fst + k) "")) 4)
      (List.range (b - tok.tmap.fst)) =
    List.map (fun k => pyDrop (w k) env.min_indent ++ r k)
      (List.range (b - tok.tmap.fst)) := by
    refine List.map_congr_left ?_
    intro k hk
    have hk2 := List.mem_range.mp hk
    obtain ⟨hline2, hw, hp, hm⟩ := hinl k hk2
    rw [hline2]
    exact strip_prompt_line env.min_indent (w k) (p k) (r k) hw hp hm
  rw [hinps]
  have hcom : (dedent_block (List.map (fun k => env.src.getD (b + k) "")
      (List.range (oe - b))) mi) =
    List.map (fun k => c k ++ "\n") (List.range (oe - b)) := by
    unfold dedent_block
    rw [List.map_map]
    refine List.map_congr_left ?_
    intro k hk
    have hk2 := List.mem_range.mp hk
    exact (houtl k hk2).1
  rw [hcom]
  have hcl : ∀ l ∈ List.map (fun k => c k ++ "\n") (List.range (oe - b)),
      cleanLine l := by
    intro l hl
    obtain ⟨k, hk, hlk⟩ := List.mem_map.mp hl
    rw [← hlk]
    exact (houtl k (List.mem_range.mp hk)).2
  rw [wrap_pre_flat (SPn K ++ "# ") _ hcl]
  rw [List.map_map]
  rfl

/-- C4 witness: the document `"    >>> 1 + 1\n    2\n"` rendered with
`include_doctest` emits `1 + 1` as live code and `2` as a comment. -/
theorem claim4_doctest_promotion_witness :
    ∃ fr envF, fence_pycon { include_doctest := true } w4tok w4env =
      .ok (fr, envF) ∧ flat fr = "1 + 1\n" ++ "# 2\n" := by
  have hdt : ({ include_doctest := true } : Config).include_doctest = true := rfl
  have hmagic : w4tok.tmeta.magic = some false := by decide
  have hin : w4tok.tmeta.inputSpan = some (w4tok.tmap.fst, 1) := by decide
  have hout : w4tok.tmeta.outputSpan = some (some (1, 2)) := by decide
  have hmi : w4tok.tmeta.min_indent = some 4 := by decide
  have hline : w4env.last_line = w4tok.tmap.fst := by decide
  have hfb : w4tok.tmap.fst ≤ 1 := by decide
  have hboe : (1 : Nat) ≤ 2 := by decide
  have hK0 : get_computed_indent w4env = .ok 0 := by rfl
  have hK : get_computed_indent
      { w4env with last_indent := w4tok.tmeta.last_indent.getD 0 } = .ok 0 := by rfl
  have hinl : ∀ k, k < 1 - w4tok.tmap.fst →
      w4env.src.getD (w4tok.tmap.fst + k) "" =
        (fun _ => "    ") k ++ (fun _ => ">>> ") k ++ (fun _ => "1 + 1\n") k ∧
      (chars ((fun _ => "    ") k)).all (fun ch => ch = ' ') = true ∧
      (fun _ => ">>> ") k ∈ prompts ∧
      w4env.min_indent ≤ pyLen ((fun _ => "    ") k) := by decide
  have houtl : ∀ k, k < 2 - 1 →
      pyDrop (w4env.src.getD (1 + k) "") 4 = (fun _ => "2") k ++ "\n" ∧
      cleanLine ((fun _ => "2") k ++ "\n") := by decide
  obtain ⟨fr, envF, h1, h2⟩ := claim4_doctest_promotion
    { include_doctest := true } w4tok w4env 1 2 4 0 0
    (fun _ => "    ") (fun _ => ">>> ") (fun _ => "1 + 1\n") (fun _ => "2")
    hdt hmagic hin hout hmi hline hfb hboe hK0 hK hinl houtl
  exact ⟨fr, envF, h1, h2.trans (by decide)⟩

end Midgy
